import Mathlib

set_option maxHeartbeats 1000000
set_option maxRecDepth 16384

namespace Egos

/-- NFRAMES from cpu_mmu.c: capacity of the physical frame table. -/
abbrev NFRAMES : Nat := 256

/-- PAGE_SIZE from egos.h: 4096-byte pages. -/
abbrev PAGE_SIZE : Nat := 4096

/-- FLAG_VALID_RWX from cpu_mmu.c. -/
abbrev FLAG_VALID_RWX : Nat := 0xF

/-- FLAG_NEXT_LEVEL from cpu_mmu.c. -/
abbrev FLAG_NEXT_LEVEL : Nat := 0x1

/-- One entry of `struct frame_mapping` in cpu_mmu.c. The C `use` field is an
int holding 0 or 1, modelled as a Bool; `pid` is a C int; `page_no` is used
only as a nonnegative page index. -/
structure frame_mapping where
  use : Bool
  pid : Int
  page_no : Nat
deriving DecidableEq

/-- The zeroed frame entry produced by `memset(&table[i], 0, sizeof(struct frame_mapping))`. -/
def frame_mapping.clear : frame_mapping := ⟨false, 0, 0⟩

/-- Calls issued to the paging device (the `paging_*` interface of earth/dev_page.c). -/
inductive PCall where
  | read (frame_id : Nat) (alloc_only : Bool)
  | write (frame_id : Nat) (page_no : Nat)
  | invalidate (frame_id : Nat)
  | initDev
deriving DecidableEq

/-- Global state touched by cpu_mmu.c: the frame table and
`pid_to_pagetable_base`, the static locals (`curr_vm_pid`, `frame_id`, `root`,
`leaf`), a byte model `phys` of physical memory used by the software TLB, a
word model `mem` of the memory holding page tables (index = byte address / 4),
the paging device content `store` (frame id to byte offset to byte), and the
sequence `log` of calls issued to the paging device. -/
@[ext]
structure EarthState where
  table : Fin NFRAMES → frame_mapping
  pid_to_pagetable_base : Int → Nat
  store : Nat → Nat → Nat
  phys : Nat → Nat
  mem : Nat → Nat
  curr_vm_pid : Int
  frame_id : Nat
  root : Nat
  leaf : Nat
  log : List PCall

/-- Modelled from the spec: earth/dev_page.c is not among the sources; the spec
says `read(frame_id, alloc_only)` materializes the frame storage in memory and
returns its in-memory address. Modelled as a fixed page-aligned cache slot per
frame id. -/
def paging_read_addr (fid : Nat) : Nat := fid * PAGE_SIZE

/-- mmu_alloc from cpu_mmu.c: scan the table for the first entry with
`!table[i].use`, call `paging_read(i, 1)` for it, set `table[i].use = 1` and
return 0 together with the frame id and the cached address; FATAL when no
frame is free. -/
def mmu_alloc (s : EarthState) : Except String (Int × Nat × Nat × EarthState) :=
  match (List.finRange NFRAMES).find? (fun i => !(s.table i).use) with
  | some i => .ok (0, i.val, paging_read_addr i.val,
      { s with table := Function.update s.table i { s.table i with use := true },
               log := s.log ++ [PCall.read i.val true] })
  | none => .error "mmu_alloc: no more available frames"

/-- A sequence of `n` mmu_alloc calls with no intervening frees, collecting
the returned frame ids. -/
def allocSeq : Nat → EarthState → Except String (List Nat × EarthState)
  | 0, s => .ok ([], s)
  | n + 1, s =>
    match mmu_alloc s with
    | .error e => .error e
    | .ok (_, fid, _, s1) =>
      match allocSeq n s1 with
      | .error e => .error e
      | .ok (l, s2) => .ok (fid :: l, s2)

/-- One iteration of the loop in mmu_free: when frame `i` is used and owned by
`pid`, call `paging_invalidate_cache(i)` and zero the entry. -/
def free_step (pid : Int) (t : EarthState) (i : Fin NFRAMES) : EarthState :=
  if (t.table i).use = true ∧ (t.table i).pid = pid then
    { t with table := Function.update t.table i frame_mapping.clear,
             log := t.log ++ [PCall.invalidate i.val] }
  else t

/-- mmu_free from cpu_mmu.c: clear every used frame owned by `pid` (invalidating
its paging-device cache), then set `pid_to_pagetable_base[pid] = 0`. -/
def mmu_free (pid : Int) (s : EarthState) : EarthState :=
  let s1 := (List.finRange NFRAMES).foldl (free_step pid) s
  { s1 with pid_to_pagetable_base := Function.update s1.pid_to_pagetable_base pid 0 }

/-- soft_mmu_map from cpu_mmu.c: record owner pid and page number for the frame. -/
def soft_mmu_map (pid : Int) (page_no : Nat) (fid : Fin NFRAMES) (s : EarthState) : EarthState :=
  { s with table :=
      Function.update s.table fid { s.table fid with pid := pid, page_no := page_no } }

/-- The PAGE_SIZE bytes of physical memory starting at `page_no << 12`, as a
function from byte offset to byte. -/
def readPage (phys : Nat → Nat) (page_no : Nat) : Nat → Nat :=
  fun off => phys (page_no * PAGE_SIZE + off)

/-- Overwrite the PAGE_SIZE bytes of physical memory starting at
`page_no << 12` with `content` (the effect of `memcpy((void*)(page_no << 12), content, PAGE_SIZE)`). -/
def writePage (phys : Nat → Nat) (page_no : Nat) (content : Nat → Nat) : Nat → Nat :=
  fun a => if page_no * PAGE_SIZE ≤ a ∧ a < page_no * PAGE_SIZE + PAGE_SIZE
           then content (a - page_no * PAGE_SIZE) else phys a

/-- One iteration of the first loop in soft_mmu_switch: for a used frame owned
by `pid`, `paging_write(i, table[i].page_no)` persists the bytes currently at
`page_no << 12` into the paging device keyed by the frame id (modelled from the
spec, dev_page.c being absent: write persists the frame content for later read). -/
def p1step (pid : Int) (t : EarthState) (i : Fin NFRAMES) : EarthState :=
  if (t.table i).use = true ∧ (t.table i).pid = pid then
    { t with store := Function.update t.store i.val (readPage t.phys (t.table i).page_no),
             log := t.log ++ [PCall.write i.val (t.table i).page_no] }
  else t

/-- First loop of soft_mmu_switch: write out every used frame of `pid`. -/
def switch_phase1 (pid : Int) (s : EarthState) : EarthState :=
  (List.finRange NFRAMES).foldl (p1step pid) s

/-- One iteration of the second loop in soft_mmu_switch: for a used frame owned
by `pid`, `memcpy((void*)(table[i].page_no << 12), paging_read(i, 0), PAGE_SIZE)`. -/
def p2step (pid : Int) (t : EarthState) (i : Fin NFRAMES) : EarthState :=
  if (t.table i).use = true ∧ (t.table i).pid = pid then
    { t with phys := writePage t.phys (t.table i).page_no (t.store i.val),
             log := t.log ++ [PCall.read i.val false] }
  else t

/-- Second loop of soft_mmu_switch: copy every used frame of `pid` into the
physical window at its page number. -/
def switch_phase2 (pid : Int) (s : EarthState) : EarthState :=
  (List.finRange NFRAMES).foldl (p2step pid) s

/-- soft_mmu_switch from cpu_mmu.c: return at once when `pid` is already
resident; otherwise write out the resident process, copy in `pid`, and set
`curr_vm_pid` last. -/
def soft_mmu_switch (pid : Int) (s : EarthState) : EarthState :=
  if pid = s.curr_vm_pid then s
  else { switch_phase2 pid (switch_phase1 s.curr_vm_pid s) with curr_vm_pid := pid }

/-- Effect of `memset(base, 0, PAGE_SIZE)` on the word memory (base is a
4-aligned byte address; words base/4 .. base/4 + 1023 are zeroed). -/
def memset_page (mem : Nat → Nat) (base : Nat) : Nat → Nat :=
  fun w => if base / 4 ≤ w ∧ w < base / 4 + 1024 then 0 else mem w

/-- setup_identity_region from cpu_mmu.c: allocate a leaf page table frame,
zero it, install `root[addr >> 22] = ((unsigned int)leaf >> 2) | FLAG_NEXT_LEVEL`,
and fill `npages` leaf entries from index `(addr >> 12) & 0x3FF` with
`((addr + i * PAGE_SIZE) >> 2) | FLAG_VALID_RWX`. -/
def setup_identity_region (addr : Nat) (npages : Nat) (s : EarthState) : Except String EarthState :=
  match mmu_alloc s with
  | .error e => .error e
  | .ok (_, fid, cached, s1) =>
    let s2 : EarthState :=
      { s1 with
          frame_id := fid
          leaf := cached
          mem := memset_page s1.mem cached }
    let vpn1 : Nat := addr >>> 22
    let s3 : EarthState :=
      { s2 with mem :=
          Function.update s2.mem (s2.root / 4 + vpn1) ((s2.leaf >>> 2) ||| FLAG_NEXT_LEVEL) }
    let vpn0 : Nat := (addr >>> 12) &&& 0x3FF
    let filled : Nat → Nat :=
      (List.range npages).foldl
        (fun m i =>
          Function.update m (s3.leaf / 4 + vpn0 + i)
            (((addr + i * PAGE_SIZE) >>> 2) ||| FLAG_VALID_RWX))
        s3.mem
    .ok { s3 with mem := filled }

/-- pagetable_identity_mapping from cpu_mmu.c: allocate the root page table,
zero it, record it as the page table base of `pid`, then build the six
identity regions in the fixed order of the source. -/
def pagetable_identity_mapping (pid : Int) (s : EarthState) : Except String EarthState :=
  match mmu_alloc s with
  | .error e => .error e
  | .ok (_, fid, cached, s1) =>
    let s2 : EarthState :=
      { s1 with
          frame_id := fid
          root := cached
          mem := memset_page s1.mem cached
          pid_to_pagetable_base := Function.update s1.pid_to_pagetable_base pid cached }
    setup_identity_region 0x02000000 16 s2 >>=
    setup_identity_region 0x10013000 1 >>=
    setup_identity_region 0x20400000 1024 >>=
    setup_identity_region 0x20800000 1024 >>=
    setup_identity_region 0x08000000 8 >>=
    setup_identity_region 0x80000000 1024

/-- pagetable_mmu_map from cpu_mmu.c: the student extension point; the body is
a single FATAL. -/
def pagetable_mmu_map (_pid : Int) (_page_no : Nat) (_fid : Nat) (_s : EarthState) :
    Except String EarthState :=
  .error "mmu_map() using page table translation not implemented"

/-- pagetable_mmu_switch from cpu_mmu.c: the student extension point; the body
is a single FATAL. -/
def pagetable_mmu_switch (_pid : Int) (_s : EarthState) : Except String EarthState :=
  .error "mmu_switch() using page table translation not implemented"

/-- Tags naming the functions that can be installed in the earth MMU interface. -/
inductive MMUFn where
  | alloc_fn
  | free_fn
  | soft_map_fn
  | soft_switch_fn
  | pt_map_fn
  | pt_switch_fn
deriving DecidableEq

/-- The four MMU interface slots of the earth structure filled in by mmu_init. -/
structure EarthIface where
  mmu_alloc : MMUFn
  mmu_free : MMUFn
  mmu_map : MMUFn
  mmu_switch : MMUFn
deriving DecidableEq

/-- Result of mmu_init: hangs when the console input never yields a valid
choice, fatal on FATAL, otherwise the installed interface and final state. -/
inductive InitResult where
  | hangs
  | fatal (msg : String)
  | ok (iface : EarthIface) (s : EarthState)

/-- The tty_read loop of mmu_init: keep reading until the character is
a character 0 or a character 1; `none` when the input is exhausted first
(the C loop would keep re-reading forever). -/
def readChoice : List Char → Option Char
  | [] => none
  | c :: cs => if c = '0' ∨ c = '1' then some c else readChoice cs

/-- paging_init from dev_page.c, modelled from the spec as initializing the
paging device: recorded as a device call. -/
def paging_init (s : EarthState) : EarthState :=
  { s with log := s.log ++ [PCall.initDev] }

/-- mmu_init from cpu_mmu.c: read the mechanism choice, probe the platform
(the probe outcome is the `arty` parameter: true when the deliberate store
faults and platform_detect reclassifies the platform as ARTY), abort when page
tables were chosen on Arty, install the software TLB interface, override map
and switch with the page table versions after building the identity mapping
when page tables were chosen, and finally initialize the paging device. -/
def mmu_init (input : List Char) (arty : Bool) (s : EarthState) : InitResult :=
  match readChoice input with
  | none => .hangs
  | some c =>
    if arty = true ∧ c = '0' then
      .fatal "Arty board does not support page tables (supervisor mode)."
    else
      let iface : EarthIface :=
        ⟨MMUFn.alloc_fn, MMUFn.free_fn, MMUFn.soft_map_fn, MMUFn.soft_switch_fn⟩
      if c = '0' then
        match pagetable_identity_mapping 0 s with
        | .error e => .fatal e
        | .ok s1 =>
          .ok { iface with mmu_map := MMUFn.pt_map_fn, mmu_switch := MMUFn.pt_switch_fn }
             (paging_init s1)
      else .ok iface (paging_init s)

/-- Modelled from the spec: GPID_DIR, the well-known directory server identity
from servers.h (not among the sources); its concrete value is irrelevant. -/
def GPID_DIR : Int := 4

/-- Modelled from the spec: GPID_FILE, the well-known file server identity
from servers.h (not among the sources). -/
def GPID_FILE : Int := 3

/-- Modelled from the spec: DIR_OK, the success status of a directory reply
(servers.h is not among the sources). -/
def DIR_OK : Int := 0

/-- Modelled from the spec: FILE_OK, the success status of a file reply. -/
def FILE_OK : Int := 0

/-- Modelled from the spec: BLOCK_SIZE, the fixed data block size of a file
reply (disk.h is not among the sources). -/
def BLOCK_SIZE : Nat := 512

/-- Fields of `struct dir_reply` read by dir_lookup in servers.c. -/
structure dir_reply where
  status : Int
  ino : Int

/-- Fields of `struct file_reply` read by file_read in servers.c. -/
structure file_reply where
  status : Int
  block : Nat → Nat

/-- dir_lookup from servers.c, phrased on the received reply: FATAL when the
sender is not GPID_DIR, else the inode number when the status is DIR_OK and -1
otherwise. -/
def dir_lookup (sender : Int) (reply : dir_reply) : Except String Int :=
  if sender ≠ GPID_DIR then .error "dir_lookup: an error occurred"
  else .ok (if reply.status = DIR_OK then reply.ino else -1)

/-- file_read from servers.c, phrased on the received reply and the caller
buffer `dest`: FATAL when the sender is not GPID_FILE, else memcpy BLOCK_SIZE
bytes of the reply block into the buffer and return 0 when the status is
FILE_OK and -1 otherwise. -/
def file_read (sender : Int) (reply : file_reply) (dest : Nat → Nat) :
    Except String ((Nat → Nat) × Int) :=
  if sender ≠ GPID_FILE then .error "file_read: an error occurred"
  else .ok (fun a => if a < BLOCK_SIZE then reply.block a else dest a,
            if reply.status = FILE_OK then 0 else -1)

/-- The zero-initialized boot state: the frame table and all memories are
zeroed, `curr_vm_pid` is the initial -1 of the static in soft_mmu_switch, and
no paging-device call has been made. -/
def init_state : EarthState :=
  { table := fun _ => frame_mapping.clear
    pid_to_pagetable_base := fun _ => 0
    store := fun _ _ => 0
    phys := fun _ => 0
    mem := fun _ => 0
    curr_vm_pid := -1
    frame_id := 0
    root := 0
    leaf := 0
    log := [] }

end Egos

namespace Egos

/-- Post state of a successful mmu_alloc that picked frame `i`. -/
def alloc_post (s : EarthState) (i : Fin NFRAMES) : EarthState :=
  { s with table := Function.update s.table i { s.table i with use := true },
           log := s.log ++ [PCall.read i.val true] }

lemma find?_first {n : Nat} (p : Fin n → Bool) (l : List (Fin n))
    (hs : l.Pairwise (· < ·)) (i : Fin n) (hi : i ∈ l) (hpi : p i = true)
    (hmin : ∀ j ∈ l, j < i → p j = false) : l.find? p = some i := by
  induction l with
  | nil => cases hi
  | cons a t ih =>
    by_cases h : p a = true
    · have hai : a = i := by
        rcases List.mem_cons.mp hi with h1 | h1
        · exact h1.symm
        · have : a < i := (List.pairwise_cons.mp hs).1 i h1
          have := hmin a (List.mem_cons_self a t) this
          rw [this] at h; cases h
      subst hai
      simp [List.find?, h]
    · have hne : i ≠ a := fun he => h (he ▸ hpi)
      have hit : i ∈ t := by
        rcases List.mem_cons.mp hi with h1 | h1
        · exact absurd h1 hne
        · exact h1
      have hb : p a = false := by
        cases hpa : p a
        · rfl
        · exact absurd hpa h
      simp only [List.find?, hb]
      exact ih (List.pairwise_cons.mp hs).2 hit
        (fun j hj hji => hmin j (List.mem_cons_of_mem a hj) hji)

lemma find?_min {n : Nat} (p : Fin n → Bool) (l : List (Fin n))
    (hs : l.Pairwise (· < ·)) (i : Fin n) (h : l.find? p = some i) :
    p i = true ∧ i ∈ l ∧ ∀ j ∈ l, j < i → p j = false := by
  induction l with
  | nil => cases h
  | cons a t ih =>
    by_cases hpa : p a = true
    · simp [List.find?, hpa] at h
      subst h
      refine ⟨hpa, List.mem_cons_self a t, ?_⟩
      intro j hj hji
      rcases List.mem_cons.mp hj with h1 | h1
      · subst h1; exact absurd hji (lt_irrefl j)
      · have : a < j := (List.pairwise_cons.mp hs).1 j h1
        exact absurd (this.trans hji) (lt_irrefl a)
    · have hb : p a = false := by
        cases hq : p a
        · rfl
        · exact absurd hq hpa
      simp only [List.find?, hb] at h
      obtain ⟨h1, h2, h3⟩ := ih (List.pairwise_cons.mp hs).2 h
      refine ⟨h1, List.mem_cons_of_mem a h2, ?_⟩
      intro j hj hji
      rcases List.mem_cons.mp hj with he | he
      · subst he; exact hb
      · exact h3 j he hji

lemma find?_all_false {n : Nat} (p : Fin n → Bool) (l : List (Fin n))
    (h : ∀ j ∈ l, p j = false) : l.find? p = none := by
  induction l with
  | nil => rfl
  | cons a t ih =>
    simp only [List.find?, h a (List.mem_cons_self a t)]
    exact ih (fun j hj => h j (List.mem_cons_of_mem a hj))

lemma find?_none_all_false {n : Nat} (p : Fin n → Bool) (l : List (Fin n))
    (h : l.find? p = none) : ∀ j ∈ l, p j = false := by
  induction l with
  | nil => intro j hj; cases hj
  | cons a t ih =>
    intro j hj
    by_cases hpa : p a = true
    · simp [List.find?, hpa] at h
    · have hb : p a = false := by
        cases hq : p a
        · rfl
        · exact absurd hq hpa
      simp only [List.find?, hb] at h
      rcases List.mem_cons.mp hj with he | he
      · subst he; exact hb
      · exact ih h j he

lemma mmu_alloc_ok_eq (s : EarthState) (i : Fin NFRAMES)
    (hfree : (s.table i).use = false)
    (hmin : ∀ j : Fin NFRAMES, j < i → (s.table j).use = true) :
    mmu_alloc s = .ok (0, i.val, paging_read_addr i.val, alloc_post s i) := by
  have hf : (List.finRange NFRAMES).find? (fun j => !(s.table j).use) = some i := by
    apply find?_first _ _ (List.pairwise_lt_finRange NFRAMES) i (List.mem_finRange i)
    · simp [hfree]
    · intro j _ hji; simp [hmin j hji]
  unfold mmu_alloc
  rw [hf]
  rfl

lemma mmu_alloc_ok_inv (s s' : EarthState) (r : Int) (fid a : Nat)
    (h : mmu_alloc s = .ok (r, fid, a, s')) :
    ∃ i : Fin NFRAMES, i.val = fid ∧ (s.table i).use = false
      ∧ (∀ j : Fin NFRAMES, j < i → (s.table j).use = true)
      ∧ r = 0 ∧ a = paging_read_addr fid ∧ s' = alloc_post s i := by
  unfold mmu_alloc at h
  cases hf : (List.finRange NFRAMES).find? (fun j => !(s.table j).use) with
  | none => rw [hf] at h; cases h
  | some i =>
    rw [hf] at h
    obtain ⟨hp, _, _⟩ := find?_min _ _ (List.pairwise_lt_finRange NFRAMES) i hf
    simp only [Except.ok.injEq, Prod.mk.injEq] at h
    obtain ⟨hr, hfid, ha, hs⟩ := h
    refine ⟨i, hfid, ?_, ?_, hr.symm, ?_, hs.symm⟩
    · simpa using hp
    · intro j hji
      by_contra hju
      have hju2 : (s.table j).use = false := by
        cases hq : (s.table j).use
        · rfl
        · exact absurd hq hju
      have := (find?_min _ _ (List.pairwise_lt_finRange NFRAMES) i hf).2.2 j
        (List.mem_finRange j) hji
      simp [hju2] at this
    · rw [← hfid]; exact ha.symm

lemma mmu_alloc_full_error (s : EarthState) (h : ∀ i : Fin NFRAMES, (s.table i).use = true) :
    mmu_alloc s = .error "mmu_alloc: no more available frames" := by
  unfold mmu_alloc
  rw [find?_all_false _ _ (fun j _ => by simp [h j])]

lemma mmu_alloc_error_iff (s : EarthState) :
    (∃ msg, mmu_alloc s = .error msg) ↔ ∀ i : Fin NFRAMES, (s.table i).use = true := by
  constructor
  · rintro ⟨msg, h⟩ i
    unfold mmu_alloc at h
    cases hf : (List.finRange NFRAMES).find? (fun j => !(s.table j).use) with
    | none =>
      have := find?_none_all_false _ _ hf i (List.mem_finRange i)
      simpa using this
    | some j => rw [hf] at h; cases h
  · intro h
    exact ⟨_, mmu_alloc_full_error s h⟩

lemma alloc_post_table (s : EarthState) (i j : Fin NFRAMES) :
    (alloc_post s i).table j = if j = i then { s.table i with use := true } else s.table j := by
  simp [alloc_post, Function.update_apply]

lemma alloc_post_use_mono (s : EarthState) (i j : Fin NFRAMES)
    (h : (s.table j).use = true) : ((alloc_post s i).table j).use = true := by
  rw [alloc_post_table]
  by_cases hj : j = i <;> simp [hj, h]

end Egos

namespace Egos

lemma allocSeq_zero (s : EarthState) : allocSeq 0 s = .ok ([], s) := rfl

lemma allocSeq_succ (n : Nat) (s : EarthState) : allocSeq (n + 1) s =
    match mmu_alloc s with
    | .error e => .error e
    | .ok (_, fid, _, s1) =>
      match allocSeq n s1 with
      | .error e => .error e
      | .ok (l, s2) => .ok (fid :: l, s2) := rfl

lemma allocSeq_use_mono (n : Nat) :
    ∀ (s s' : EarthState) (l : List Nat), allocSeq n s = .ok (l, s') →
      ∀ j : Fin NFRAMES, (s.table j).use = true → (s'.table j).use = true := by
  induction n with
  | zero =>
    intro s s' l h j hj
    rw [allocSeq_zero] at h
    simp only [Except.ok.injEq, Prod.mk.injEq] at h
    rw [← h.2]; exact hj
  | succ n ih =>
    intro s s' l h j hj
    rw [allocSeq_succ] at h
    cases ha : mmu_alloc s with
    | error e => rw [ha] at h; cases h
    | ok v =>
      obtain ⟨r, fid, a, s1⟩ := v
      rw [ha] at h
      dsimp only at h
      cases hq : allocSeq n s1 with
      | error e => rw [hq] at h; cases h
      | ok w =>
        obtain ⟨l2, s2⟩ := w
        rw [hq] at h
        simp only [Except.ok.injEq, Prod.mk.injEq] at h
        obtain ⟨i, _, _, _, _, _, hs1⟩ := mmu_alloc_ok_inv s s1 r fid a ha
        subst hs1
        have h1 : ((alloc_post s i).table j).use = true := alloc_post_use_mono s i j hj
        have := ih (alloc_post s i) s2 l2 hq j h1
        rw [← h.2]; exact this

lemma allocSeq_ids (n : Nat) :
    ∀ (s s' : EarthState) (l : List Nat), allocSeq n s = .ok (l, s') →
      l.Nodup ∧ ∀ fid ∈ l, ∃ j : Fin NFRAMES, j.val = fid
        ∧ (s.table j).use = false ∧ (s'.table j).use = true := by
  induction n with
  | zero =>
    intro s s' l h
    rw [allocSeq_zero] at h
    simp only [Except.ok.injEq, Prod.mk.injEq] at h
    rw [← h.1]
    exact ⟨List.nodup_nil, by intro fid hf; cases hf⟩
  | succ n ih =>
    intro s s' l h
    rw [allocSeq_succ] at h
    cases ha : mmu_alloc s with
    | error e => rw [ha] at h; cases h
    | ok v =>
      obtain ⟨r, fid, a, s1⟩ := v
      rw [ha] at h
      dsimp only at h
      cases hq : allocSeq n s1 with
      | error e => rw [hq] at h; cases h
      | ok w =>
        obtain ⟨l2, s2⟩ := w
        rw [hq] at h
        simp only [Except.ok.injEq, Prod.mk.injEq] at h
        obtain ⟨hl, hs2⟩ := h
        obtain ⟨i, hival, hifree, _, _, _, hs1⟩ := mmu_alloc_ok_inv s s1 r fid a ha
        subst hs1
        obtain ⟨hnd, hmem⟩ := ih (alloc_post s i) s2 l2 hq
        have hiused : ((alloc_post s i).table i).use = true := by
          rw [alloc_post_table]; simp
        constructor
        · rw [← hl]
          refine List.Nodup.cons ?_ hnd
          intro hfin
          obtain ⟨j, hjval, hjfree, _⟩ := hmem fid hfin
          have hji : j = i := Fin.val_injective (hjval.trans hival.symm)
          rw [hji, hiused] at hjfree
          cases hjfree
        · intro g hg
          rw [← hl] at hg
          rcases List.mem_cons.mp hg with he | he
          · subst he
            refine ⟨i, hival, hifree, ?_⟩
            rw [← hs2]
            exact allocSeq_use_mono n (alloc_post s i) s2 l2 hq i hiused
          · obtain ⟨j, hjval, hjfree, hjused⟩ := hmem g he
            refine ⟨j, hjval, ?_, by rw [← hs2]; exact hjused⟩
            by_contra hju
            have hju2 : (s.table j).use = true := by
              cases hquse : (s.table j).use
              · exact absurd hquse hju
              · rfl
            have := alloc_post_use_mono s i j hju2
            rw [this] at hjfree
            cases hjfree

/-- Set of free frames of a state. -/
def freeSet (s : EarthState) : Finset (Fin NFRAMES) :=
  Finset.univ.filter (fun i => (s.table i).use = false)

lemma freeSet_alloc_post (s : EarthState) (i : Fin NFRAMES)
    (hfree : (s.table i).use = false) :
    freeSet (alloc_post s i) = (freeSet s).erase i := by
  ext j
  simp only [freeSet, Finset.mem_filter, Finset.mem_univ, true_and, Finset.mem_erase]
  rw [alloc_post_table]
  by_cases hj : j = i
  · subst hj; simp
  · simp [hj]

lemma freeSet_card_alloc_post (s : EarthState) (i : Fin NFRAMES)
    (hfree : (s.table i).use = false) :
    (freeSet (alloc_post s i)).card = (freeSet s).card - 1 := by
  rw [freeSet_alloc_post s i hfree]
  exact Finset.card_erase_of_mem (by simp [freeSet, hfree])

lemma allocSeq_total (n : Nat) :
    ∀ s : EarthState, n ≤ (freeSet s).card →
      ∃ l s', allocSeq n s = .ok (l, s') ∧ (freeSet s').card = (freeSet s).card - n := by
  induction n with
  | zero => intro s _; exact ⟨[], s, rfl, by omega⟩
  | succ n ih =>
    intro s hn
    have hpos : 0 < (freeSet s).card := by omega
    obtain ⟨i, hi⟩ := Finset.card_pos.mp hpos
    have hifree : (s.table i).use = false := by
      simpa [freeSet] using hi
    cases hf : (List.finRange NFRAMES).find? (fun j => !(s.table j).use) with
    | none =>
      have := find?_none_all_false _ _ hf i (List.mem_finRange i)
      simp [hifree] at this
    | some j =>
      obtain ⟨hpj, _, hjmin⟩ := find?_min _ _ (List.pairwise_lt_finRange NFRAMES) j hf
      have hjfree : (s.table j).use = false := by simpa using hpj
      have ha : mmu_alloc s = .ok (0, j.val, paging_read_addr j.val, alloc_post s j) := by
        unfold mmu_alloc; rw [hf]; rfl
      have hcard : (freeSet (alloc_post s j)).card = (freeSet s).card - 1 :=
        freeSet_card_alloc_post s j hjfree
      obtain ⟨l, s', hseq, hc⟩ := ih (alloc_post s j) (by omega)
      refine ⟨j.val :: l, s', ?_, by omega⟩
      rw [allocSeq_succ, ha]
      dsimp only
      rw [hseq]

lemma freeSet_init : (freeSet init_state).card = NFRAMES := by
  have : freeSet init_state = Finset.univ := by
    ext j; simp [freeSet, init_state, frame_mapping.clear]
  rw [this, Finset.card_univ]
  simp

end Egos

namespace Egos

/-- C1: mmu_alloc returns the index of the first (lowest-index) frame whose
use flag is false, asks the paging device to materialize it in allocation-only
mode (`paging_read(i, 1)`), marks that frame used, and returns 0, leaving the
frame's owner pid and page number untouched; and for every sequence of at most
NFRAMES allocate calls without intervening frees, each returned frame id is
unique and distinct from every id allocated at the start of the sequence. -/
theorem mmu_alloc_first_fit (s : EarthState) (i : Fin NFRAMES)
    (hfree : (s.table i).use = false)
    (hmin : ∀ j : Fin NFRAMES, j < i → (s.table j).use = true) :
    (∃ s', mmu_alloc s = .ok (0, i.val, paging_read_addr i.val, s')
      ∧ (s'.table i).use = true
      ∧ (s'.table i).pid = (s.table i).pid
      ∧ (s'.table i).page_no = (s.table i).page_no
      ∧ (∀ j : Fin NFRAMES, j ≠ i → s'.table j = s.table j)
      ∧ s'.log = s.log ++ [PCall.read i.val true])
    ∧ ∀ (n : Nat) (t t' : EarthState) (l : List Nat),
        n ≤ NFRAMES → allocSeq n t = .ok (l, t') →
        l.Nodup ∧ ∀ fid ∈ l, ∃ j : Fin NFRAMES, j.val = fid ∧ (t.table j).use = false := by
  constructor
  · refine ⟨alloc_post s i, mmu_alloc_ok_eq s i hfree hmin, ?_, ?_, ?_, ?_, rfl⟩
    · rw [alloc_post_table]; simp
    · rw [alloc_post_table]; simp
    · rw [alloc_post_table]; simp
    · intro j hj; rw [alloc_post_table]; simp [hj]
  · intro n t t' l _ hseq
    obtain ⟨hnd, hmem⟩ := allocSeq_ids n t t' l hseq
    exact ⟨hnd, fun fid hf => by
      obtain ⟨j, h1, h2, _⟩ := hmem fid hf
      exact ⟨j, h1, h2⟩⟩

theorem mmu_alloc_first_fit_witness :
    ((init_state.table 0).use = false
      ∧ ∀ j : Fin NFRAMES, j < 0 → (init_state.table j).use = true)
    ∧ ((∃ s', mmu_alloc init_state =
          .ok (0, (0 : Fin NFRAMES).val, paging_read_addr (0 : Fin NFRAMES).val, s')
        ∧ (s'.table 0).use = true
        ∧ (s'.table 0).pid = (init_state.table 0).pid
        ∧ (s'.table 0).page_no = (init_state.table 0).page_no
        ∧ (∀ j : Fin NFRAMES, j ≠ 0 → s'.table j = init_state.table j)
        ∧ s'.log = init_state.log ++ [PCall.read (0 : Fin NFRAMES).val true])
      ∧ ∀ (n : Nat) (t t' : EarthState) (l : List Nat),
          n ≤ NFRAMES → allocSeq n t = .ok (l, t') →
          l.Nodup ∧ ∀ fid ∈ l, ∃ j : Fin NFRAMES, j.val = fid ∧ (t.table j).use = false) :=
  ⟨⟨rfl, by decide⟩, mmu_alloc_first_fit init_state 0 rfl (by decide)⟩

/-- C2: mmu_alloc fails fatally exactly when no frame with a false use flag
exists; starting from the zeroed boot state, NFRAMES allocate calls all
succeed and the next allocate call fails with the resource-exhaustion FATAL. -/
theorem mmu_alloc_exhaustion :
    (∀ s : EarthState,
        (∃ msg, mmu_alloc s = .error msg) ↔ ∀ i : Fin NFRAMES, (s.table i).use = true)
    ∧ ∃ l s', allocSeq NFRAMES init_state = .ok (l, s')
        ∧ mmu_alloc s' = .error "mmu_alloc: no more available frames" := by
  constructor
  · exact mmu_alloc_error_iff
  · obtain ⟨l, s', h, hc⟩ := allocSeq_total NFRAMES init_state (by rw [freeSet_init])
    refine ⟨l, s', h, mmu_alloc_full_error s' ?_⟩
    intro i
    have h0 : (freeSet s').card = 0 := by rw [hc, freeSet_init]; omega
    have hemp : freeSet s' = ∅ := Finset.card_eq_zero.mp h0
    by_contra hu
    have hfalse : (s'.table i).use = false := by
      cases hq : (s'.table i).use
      · rfl
      · exact absurd hq hu
    have : i ∈ freeSet s' := by simp [freeSet, hfalse]
    rw [hemp] at this
    cases this

/-- C8: the page-table-mode map and switch operations for arbitrary processes
are unimplemented extension points: they fail fatally and explicitly with a
diagnostic for every input and never return a success value. -/
theorem pagetable_stub_fatal :
    (∀ (pid : Int) (page_no fid : Nat) (s : EarthState),
        pagetable_mmu_map pid page_no fid s =
          .error "mmu_map() using page table translation not implemented")
    ∧ ∀ (pid : Int) (s : EarthState),
        pagetable_mmu_switch pid s =
          .error "mmu_switch() using page table translation not implemented" :=
  ⟨fun _ _ _ _ => rfl, fun _ _ => rfl⟩

end Egos

namespace Egos

lemma free_step_table_other (pid : Int) (t : EarthState) (i j : Fin NFRAMES) (hj : j ≠ i) :
    (free_step pid t i).table j = t.table j := by
  unfold free_step
  split
  · simp [Function.update_apply, hj]
  · rfl

lemma free_step_fields (pid : Int) (t : EarthState) (i : Fin NFRAMES) :
    (free_step pid t i).store = t.store ∧ (free_step pid t i).phys = t.phys
    ∧ (free_step pid t i).mem = t.mem ∧ (free_step pid t i).curr_vm_pid = t.curr_vm_pid
    ∧ (free_step pid t i).frame_id = t.frame_id ∧ (free_step pid t i).root = t.root
    ∧ (free_step pid t i).leaf = t.leaf
    ∧ (free_step pid t i).pid_to_pagetable_base = t.pid_to_pagetable_base := by
  unfold free_step
  split <;> exact ⟨rfl, rfl, rfl, rfl, rfl, rfl, rfl, rfl⟩

lemma free_fold_table (pid : Int) (l : List (Fin NFRAMES)) (hl : l.Nodup) :
    ∀ (s : EarthState) (j : Fin NFRAMES),
      ((l.foldl (free_step pid) s).table j) =
        if j ∈ l ∧ (s.table j).use = true ∧ (s.table j).pid = pid
        then frame_mapping.clear else s.table j := by
  induction l with
  | nil => intro s j; simp
  | cons a t ih =>
    intro s j
    have hnd := List.nodup_cons.mp hl
    rw [List.foldl_cons, ih hnd.2 (free_step pid s a) j]
    by_cases hj : j = a
    · subst hj
      have hjt : j ∉ t := hnd.1
      by_cases hc : (s.table j).use = true ∧ (s.table j).pid = pid
      · have h1 : (free_step pid s j).table j = frame_mapping.clear := by
          unfold free_step
          rw [if_pos hc]
          simp [Function.update_apply]
        simp [hjt, h1, hc, List.mem_cons]
      · have h1 : free_step pid s j = s := by unfold free_step; rw [if_neg hc]
        rw [h1]
        simp [hjt, hc, List.mem_cons]
    · have h1 : (free_step pid s a).table j = s.table j := free_step_table_other pid s a j hj
      rw [h1]
      simp [List.mem_cons, hj]

lemma free_fold_log (pid : Int) (l : List (Fin NFRAMES)) (hl : l.Nodup) :
    ∀ s : EarthState, (l.foldl (free_step pid) s).log =
      s.log ++ (l.filter
        (fun i => decide ((s.table i).use = true ∧ (s.table i).pid = pid))).map
        (fun i => PCall.invalidate i.val) := by
  induction l with
  | nil => intro s; simp
  | cons a t ih =>
    intro s
    have hnd := List.nodup_cons.mp hl
    rw [List.foldl_cons, ih hnd.2 (free_step pid s a)]
    have hfeq : t.filter
        (fun i => decide (((free_step pid s a).table i).use = true
          ∧ ((free_step pid s a).table i).pid = pid))
        = t.filter (fun i => decide ((s.table i).use = true ∧ (s.table i).pid = pid)) := by
      apply List.filter_congr
      intro j hjt
      have hja : j ≠ a := fun he => hnd.1 (he ▸ hjt)
      rw [free_step_table_other pid s a j hja]
    rw [hfeq]
    by_cases hc : (s.table a).use = true ∧ (s.table a).pid = pid
    · have h1 : (free_step pid s a).log = s.log ++ [PCall.invalidate a.val] := by
        unfold free_step; rw [if_pos hc]
      rw [h1]
      simp [List.filter_cons, hc]
    · have h1 : free_step pid s a = s := by unfold free_step; rw [if_neg hc]
      rw [h1]
      simp [List.filter_cons, hc]

lemma free_fold_fields (pid : Int) (l : List (Fin NFRAMES)) :
    ∀ s : EarthState,
      (l.foldl (free_step pid) s).store = s.store
      ∧ (l.foldl (free_step pid) s).phys = s.phys
      ∧ (l.foldl (free_step pid) s).mem = s.mem
      ∧ (l.foldl (free_step pid) s).curr_vm_pid = s.curr_vm_pid
      ∧ (l.foldl (free_step pid) s).frame_id = s.frame_id
      ∧ (l.foldl (free_step pid) s).root = s.root
      ∧ (l.foldl (free_step pid) s).leaf = s.leaf
      ∧ (l.foldl (free_step pid) s).pid_to_pagetable_base = s.pid_to_pagetable_base := by
  induction l with
  | nil => intro s; exact ⟨rfl, rfl, rfl, rfl, rfl, rfl, rfl, rfl⟩
  | cons a t ih =>
    intro s
    rw [List.foldl_cons]
    obtain ⟨h1, h2, h3, h4, h5, h6, h7, h8⟩ := ih (free_step pid s a)
    obtain ⟨g1, g2, g3, g4, g5, g6, g7, g8⟩ := free_step_fields pid s a
    exact ⟨h1.trans g1, h2.trans g2, h3.trans g3, h4.trans g4,
           h5.trans g5, h6.trans g6, h7.trans g7, h8.trans g8⟩

lemma mmu_free_table (pid : Int) (s : EarthState) (j : Fin NFRAMES) :
    (mmu_free pid s).table j =
      if (s.table j).use = true ∧ (s.table j).pid = pid then frame_mapping.clear
      else s.table j := by
  unfold mmu_free
  dsimp only
  rw [free_fold_table pid _ (List.nodup_finRange NFRAMES) s j]
  simp [List.mem_finRange]

lemma mmu_free_base (pid : Int) (s : EarthState) :
    (mmu_free pid s).pid_to_pagetable_base = Function.update s.pid_to_pagetable_base pid 0 := by
  unfold mmu_free
  dsimp only
  rw [(free_fold_fields pid (List.finRange NFRAMES) s).2.2.2.2.2.2.2]

lemma mmu_free_log (pid : Int) (s : EarthState) :
    (mmu_free pid s).log = s.log ++
      ((List.finRange NFRAMES).filter
        (fun i => decide ((s.table i).use = true ∧ (s.table i).pid = pid))).map
        (fun i => PCall.invalidate i.val) := by
  unfold mmu_free
  dsimp only
  rw [free_fold_log pid _ (List.nodup_finRange NFRAMES) s]

lemma mmu_free_fields (pid : Int) (s : EarthState) :
    (mmu_free pid s).store = s.store ∧ (mmu_free pid s).phys = s.phys
    ∧ (mmu_free pid s).mem = s.mem ∧ (mmu_free pid s).curr_vm_pid = s.curr_vm_pid
    ∧ (mmu_free pid s).frame_id = s.frame_id ∧ (mmu_free pid s).root = s.root
    ∧ (mmu_free pid s).leaf = s.leaf := by
  unfold mmu_free
  dsimp only
  obtain ⟨h1, h2, h3, h4, h5, h6, h7, _⟩ := free_fold_fields pid (List.finRange NFRAMES) s
  exact ⟨h1, h2, h3, h4, h5, h6, h7⟩

end Egos

namespace Egos

/-- C3: mmu_free(pid) invalidates the paging-device cache of every used frame
owned by pid, resets each such frame's use, owner and page fields to zero,
clears pid's page-table-base record, leaves every other frame entry unchanged;
afterwards no used frame reports owner pid, and the operation is idempotent. -/
theorem mmu_free_spec (pid : Int) (s : EarthState) :
    (∀ j : Fin NFRAMES, (mmu_free pid s).table j =
        if (s.table j).use = true ∧ (s.table j).pid = pid then frame_mapping.clear
        else s.table j)
    ∧ (mmu_free pid s).pid_to_pagetable_base =
        Function.update s.pid_to_pagetable_base pid 0
    ∧ (mmu_free pid s).log = s.log ++
        ((List.finRange NFRAMES).filter
          (fun i => decide ((s.table i).use = true ∧ (s.table i).pid = pid))).map
          (fun i => PCall.invalidate i.val)
    ∧ (∀ j : Fin NFRAMES,
        ((mmu_free pid s).table j).use = true → ((mmu_free pid s).table j).pid ≠ pid)
    ∧ mmu_free pid (mmu_free pid s) = mmu_free pid s := by
  refine ⟨mmu_free_table pid s, mmu_free_base pid s, mmu_free_log pid s, ?_, ?_⟩
  · intro j hu
    rw [mmu_free_table pid s j] at hu ⊢
    by_cases hc : (s.table j).use = true ∧ (s.table j).pid = pid
    · rw [if_pos hc] at hu
      cases hu
    · rw [if_neg hc]
      intro hp
      rw [if_neg hc] at hu
      exact hc ⟨hu, hp⟩
  · have hnone : ∀ j : Fin NFRAMES,
        ¬(((mmu_free pid s).table j).use = true ∧ ((mmu_free pid s).table j).pid = pid) := by
      intro j hcon
      rw [mmu_free_table pid s j] at hcon
      by_cases hc : (s.table j).use = true ∧ (s.table j).pid = pid
      · rw [if_pos hc] at hcon
        cases hcon.1
      · rw [if_neg hc] at hcon
        exact hc hcon
    apply EarthState.ext
    · funext j
      rw [mmu_free_table pid (mmu_free pid s) j, if_neg (hnone j)]
    · rw [mmu_free_base pid (mmu_free pid s), mmu_free_base pid s, Function.update_idem]
    · rw [(mmu_free_fields pid (mmu_free pid s)).1]
    · rw [(mmu_free_fields pid (mmu_free pid s)).2.1]
    · rw [(mmu_free_fields pid (mmu_free pid s)).2.2.1]
    · rw [(mmu_free_fields pid (mmu_free pid s)).2.2.2.1]
    · rw [(mmu_free_fields pid (mmu_free pid s)).2.2.2.2.1]
    · rw [(mmu_free_fields pid (mmu_free pid s)).2.2.2.2.2.1]
    · rw [(mmu_free_fields pid (mmu_free pid s)).2.2.2.2.2.2]
    · rw [mmu_free_log pid (mmu_free pid s)]
      have hfe : ((List.finRange NFRAMES).filter
          (fun i => decide (((mmu_free pid s).table i).use = true
            ∧ ((mmu_free pid s).table i).pid = pid))) = [] := by
        rw [List.filter_eq_nil_iff]
        intro j _
        simp only [decide_eq_true_eq]
        exact hnone j
      rw [hfe]
      simp

theorem mmu_free_spec_witness :
    mmu_free 0 (mmu_free 0 init_state) = mmu_free 0 init_state :=
  (mmu_free_spec 0 init_state).2.2.2.2

end Egos

namespace Egos

lemma window_sub (p a : Nat) (h : a / PAGE_SIZE = p) : a - p * PAGE_SIZE = a % PAGE_SIZE := by
  simp only [PAGE_SIZE] at h ⊢
  omega

lemma writePage_in (phys : Nat → Nat) (p : Nat) (content : Nat → Nat) (a : Nat)
    (h : a / PAGE_SIZE = p) : writePage phys p content a = content (a % PAGE_SIZE) := by
  unfold writePage
  rw [if_pos, window_sub p a h]
  simp only [PAGE_SIZE] at h ⊢
  omega

lemma writePage_out (phys : Nat → Nat) (p : Nat) (content : Nat → Nat) (a : Nat)
    (h : a / PAGE_SIZE ≠ p) : writePage phys p content a = phys a := by
  unfold writePage
  rw [if_neg]
  simp only [PAGE_SIZE] at h ⊢
  omega

lemma p1step_fields (pid : Int) (t : EarthState) (i : Fin NFRAMES) :
    (p1step pid t i).table = t.table ∧ (p1step pid t i).phys = t.phys
    ∧ (p1step pid t i).mem = t.mem ∧ (p1step pid t i).curr_vm_pid = t.curr_vm_pid
    ∧ (p1step pid t i).frame_id = t.frame_id ∧ (p1step pid t i).root = t.root
    ∧ (p1step pid t i).leaf = t.leaf
    ∧ (p1step pid t i).pid_to_pagetable_base = t.pid_to_pagetable_base := by
  unfold p1step
  split <;> exact ⟨rfl, rfl, rfl, rfl, rfl, rfl, rfl, rfl⟩

lemma p1step_store (pid : Int) (t : EarthState) (i : Fin NFRAMES) (f : Nat) :
    (p1step pid t i).store f =
      if (t.table i).use = true ∧ (t.table i).pid = pid ∧ f = i.val
      then readPage t.phys (t.table i).page_no else t.store f := by
  unfold p1step
  by_cases hc : (t.table i).use = true ∧ (t.table i).pid = pid
  · rw [if_pos hc]
    dsimp only
    rw [Function.update_apply]
    by_cases hf : f = i.val
    · rw [if_pos hf, if_pos ⟨hc.1, hc.2, hf⟩]
    · rw [if_neg hf, if_neg (fun h => hf h.2.2)]
  · rw [if_neg hc, if_neg (fun h => hc ⟨h.1, h.2.1⟩)]

lemma p1_fold_fields (pid : Int) (l : List (Fin NFRAMES)) :
    ∀ s : EarthState,
      (l.foldl (p1step pid) s).table = s.table
      ∧ (l.foldl (p1step pid) s).phys = s.phys
      ∧ (l.foldl (p1step pid) s).mem = s.mem
      ∧ (l.foldl (p1step pid) s).curr_vm_pid = s.curr_vm_pid
      ∧ (l.foldl (p1step pid) s).frame_id = s.frame_id
      ∧ (l.foldl (p1step pid) s).root = s.root
      ∧ (l.foldl (p1step pid) s).leaf = s.leaf
      ∧ (l.foldl (p1step pid) s).pid_to_pagetable_base = s.pid_to_pagetable_base := by
  induction l with
  | nil => intro s; exact ⟨rfl, rfl, rfl, rfl, rfl, rfl, rfl, rfl⟩
  | cons a t ih =>
    intro s
    rw [List.foldl_cons]
    obtain ⟨h1, h2, h3, h4, h5, h6, h7, h8⟩ := ih (p1step pid s a)
    obtain ⟨g1, g2, g3, g4, g5, g6, g7, g8⟩ := p1step_fields pid s a
    exact ⟨h1.trans g1, h2.trans g2, h3.trans g3, h4.trans g4,
           h5.trans g5, h6.trans g6, h7.trans g7, h8.trans g8⟩

lemma p1_fold_store_untouched (pid : Int) (l : List (Fin NFRAMES)) :
    ∀ (s : EarthState) (f : Nat),
      (∀ j ∈ l, ¬((s.table j).use = true ∧ (s.table j).pid = pid ∧ f = j.val)) →
      ((l.foldl (p1step pid) s).store f) = s.store f := by
  induction l with
  | nil => intro s f _; rfl
  | cons a t ih =>
    intro s f h
    rw [List.foldl_cons]
    have h1 : (p1step pid s a).store f = s.store f := by
      rw [p1step_store, if_neg (h a (List.mem_cons_self a t))]
    have htab : (p1step pid s a).table = s.table := (p1step_fields pid s a).1
    rw [ih (p1step pid s a) f (by rw [htab]; exact fun j hj => h j (List.mem_cons_of_mem a hj)), h1]

lemma p1_fold_store_mem (pid : Int) (l : List (Fin NFRAMES)) (hl : l.Nodup) :
    ∀ (s : EarthState) (i : Fin NFRAMES), i ∈ l →
      (s.table i).use = true → (s.table i).pid = pid →
      ((l.foldl (p1step pid) s).store i.val) = readPage s.phys (s.table i).page_no := by
  induction l with
  | nil => intro s i hi; cases hi
  | cons a t ih =>
    intro s i hi hu hp
    have hnd := List.nodup_cons.mp hl
    rw [List.foldl_cons]
    by_cases hia : i = a
    · subst hia
      have h1 : (p1step pid s i).store i.val = readPage s.phys (s.table i).page_no := by
        rw [p1step_store, if_pos ⟨hu, hp, rfl⟩]
      have htab : (p1step pid s i).table = s.table := (p1step_fields pid s i).1
      rw [p1_fold_store_untouched pid t (p1step pid s i) i.val ?_, h1]
      rw [htab]
      intro j hj hcon
      have : j = i := Fin.val_injective hcon.2.2.symm
      rw [this] at hj
      exact hnd.1 hj
    · have hit : i ∈ t := by
        rcases List.mem_cons.mp hi with he | he
        · exact absurd he hia
        · exact he
      have htab : (p1step pid s a).table = s.table := (p1step_fields pid s a).1
      have hphys : (p1step pid s a).phys = s.phys := (p1step_fields pid s a).2.1
      rw [ih hnd.2 (p1step pid s a) i (by exact hit) (by rw [htab]; exact hu)
        (by rw [htab]; exact hp), htab, hphys]

lemma p1_fold_log (pid : Int) (l : List (Fin NFRAMES)) :
    ∀ s : EarthState, (l.foldl (p1step pid) s).log =
      s.log ++ (l.filter
        (fun i => decide ((s.table i).use = true ∧ (s.table i).pid = pid))).map
        (fun i => PCall.write i.val (s.table i).page_no) := by
  induction l with
  | nil => intro s; simp
  | cons a t ih =>
    intro s
    rw [List.foldl_cons, ih (p1step pid s a)]
    have htab : (p1step pid s a).table = s.table := (p1step_fields pid s a).1
    rw [htab]
    by_cases hc : (s.table a).use = true ∧ (s.table a).pid = pid
    · have h1 : (p1step pid s a).log = s.log ++ [PCall.write a.val (s.table a).page_no] := by
        unfold p1step; rw [if_pos hc]
      rw [h1]
      simp [List.filter_cons, hc]
    · have h1 : p1step pid s a = s := by unfold p1step; rw [if_neg hc]
      rw [h1]
      simp [List.filter_cons, hc]

end Egos

namespace Egos

lemma p2step_fields (pid : Int) (t : EarthState) (i : Fin NFRAMES) :
    (p2step pid t i).table = t.table ∧ (p2step pid t i).store = t.store
    ∧ (p2step pid t i).mem = t.mem ∧ (p2step pid t i).curr_vm_pid = t.curr_vm_pid
    ∧ (p2step pid t i).frame_id = t.frame_id ∧ (p2step pid t i).root = t.root
    ∧ (p2step pid t i).leaf = t.leaf
    ∧ (p2step pid t i).pid_to_pagetable_base = t.pid_to_pagetable_base := by
  unfold p2step
  split <;> exact ⟨rfl, rfl, rfl, rfl, rfl, rfl, rfl, rfl⟩

lemma p2step_phys (pid : Int) (t : EarthState) (i : Fin NFRAMES) (a : Nat) :
    (p2step pid t i).phys a =
      if (t.table i).use = true ∧ (t.table i).pid = pid ∧ (t.table i).page_no = a / PAGE_SIZE
      then t.store i.val (a % PAGE_SIZE) else t.phys a := by
  unfold p2step
  by_cases hc : (t.table i).use = true ∧ (t.table i).pid = pid
  · rw [if_pos hc]
    dsimp only
    by_cases hp : (t.table i).page_no = a / PAGE_SIZE
    · rw [writePage_in t.phys _ _ a hp.symm, if_pos ⟨hc.1, hc.2, hp⟩]
    · rw [writePage_out t.phys _ _ a (fun h => hp h.symm), if_neg (fun h => hp h.2.2)]
  · rw [if_neg hc, if_neg (fun h => hc ⟨h.1, h.2.1⟩)]

lemma p2_fold_fields (pid : Int) (l : List (Fin NFRAMES)) :
    ∀ s : EarthState,
      (l.foldl (p2step pid) s).table = s.table
      ∧ (l.foldl (p2step pid) s).store = s.store
      ∧ (l.foldl (p2step pid) s).mem = s.mem
      ∧ (l.foldl (p2step pid) s).curr_vm_pid = s.curr_vm_pid
      ∧ (l.foldl (p2step pid) s).frame_id = s.frame_id
      ∧ (l.foldl (p2step pid) s).root = s.root
      ∧ (l.foldl (p2step pid) s).leaf = s.leaf
      ∧ (l.foldl (p2step pid) s).pid_to_pagetable_base = s.pid_to_pagetable_base := by
  induction l with
  | nil => intro s; exact ⟨rfl, rfl, rfl, rfl, rfl, rfl, rfl, rfl⟩
  | cons a t ih =>
    intro s
    rw [List.foldl_cons]
    obtain ⟨h1, h2, h3, h4, h5, h6, h7, h8⟩ := ih (p2step pid s a)
    obtain ⟨g1, g2, g3, g4, g5, g6, g7, g8⟩ := p2step_fields pid s a
    exact ⟨h1.trans g1, h2.trans g2, h3.trans g3, h4.trans g4,
           h5.trans g5, h6.trans g6, h7.trans g7, h8.trans g8⟩

lemma p2_fold_phys_untouched (pid : Int) (l : List (Fin NFRAMES)) :
    ∀ (s : EarthState) (a : Nat),
      (∀ j ∈ l, ¬((s.table j).use = true ∧ (s.table j).pid = pid
        ∧ (s.table j).page_no = a / PAGE_SIZE)) →
      ((l.foldl (p2step pid) s).phys a) = s.phys a := by
  induction l with
  | nil => intro s a _; rfl
  | cons b t ih =>
    intro s a h
    rw [List.foldl_cons]
    have h1 : (p2step pid s b).phys a = s.phys a := by
      rw [p2step_phys, if_neg (h b (List.mem_cons_self b t))]
    have htab : (p2step pid s b).table = s.table := (p2step_fields pid s b).1
    rw [ih (p2step pid s b) a (by rw [htab]; exact fun j hj => h j (List.mem_cons_of_mem b hj)), h1]

lemma p2_fold_phys_last (pid : Int) (l : List (Fin NFRAMES)) (hl : l.Pairwise (· < ·)) :
    ∀ (s : EarthState) (j : Fin NFRAMES), j ∈ l →
      (s.table j).use = true → (s.table j).pid = pid →
      (∀ k ∈ l, (s.table k).use = true → (s.table k).pid = pid →
        (s.table k).page_no = (s.table j).page_no → k ≤ j) →
      ∀ off : Nat, off < PAGE_SIZE →
      ((l.foldl (p2step pid) s).phys ((s.table j).page_no * PAGE_SIZE + off)) =
        s.store j.val off := by
  induction l with
  | nil => intro s j hj; cases hj
  | cons b t ih =>
    intro s j hj hu hp hlast off hoff
    have hpw := List.pairwise_cons.mp hl
    rw [List.foldl_cons]
    have hdiv : ((s.table j).page_no * PAGE_SIZE + off) / PAGE_SIZE = (s.table j).page_no := by
      simp only [PAGE_SIZE] at hoff ⊢
      omega
    have hmod : ((s.table j).page_no * PAGE_SIZE + off) % PAGE_SIZE = off := by
      simp only [PAGE_SIZE] at hoff ⊢
      omega
    by_cases hjb : j = b
    · subst hjb
      have h1 : (p2step pid s j).phys ((s.table j).page_no * PAGE_SIZE + off) =
          s.store j.val off := by
        rw [p2step_phys, if_pos ⟨hu, hp, hdiv.symm⟩, hmod]
      have htab : (p2step pid s j).table = s.table := (p2step_fields pid s j).1
      rw [p2_fold_phys_untouched pid t (p2step pid s j) _ ?_, h1]
      rw [htab]
      intro k hk hcon
      have hjk : j < k := hpw.1 k hk
      have hkj : k ≤ j := hlast k (List.mem_cons_of_mem j hk) hcon.1 hcon.2.1
        (by rw [hcon.2.2, hdiv])
      exact absurd hjk (not_lt.mpr hkj)
    · have hjt : j ∈ t := by
        rcases List.mem_cons.mp hj with he | he
        · exact absurd he hjb
        · exact he
      have htab : (p2step pid s b).table = s.table := (p2step_fields pid s b).1
      have hst : (p2step pid s b).store = s.store := (p2step_fields pid s b).2.1
      have := ih hpw.2 (p2step pid s b) j (by exact hjt) (by rw [htab]; exact hu)
        (by rw [htab]; exact hp)
        (by
          rw [htab]
          exact fun k hk h1 h2 h3 => hlast k (List.mem_cons_of_mem b hk) h1 h2 h3)
        off hoff
      rw [htab, hst] at this
      exact this

lemma p2_fold_log (pid : Int) (l : List (Fin NFRAMES)) :
    ∀ s : EarthState, (l.foldl (p2step pid) s).log =
      s.log ++ (l.filter
        (fun i => decide ((s.table i).use = true ∧ (s.table i).pid = pid))).map
        (fun i => PCall.read i.val false) := by
  induction l with
  | nil => intro s; simp
  | cons a t ih =>
    intro s
    rw [List.foldl_cons, ih (p2step pid s a)]
    have htab : (p2step pid s a).table = s.table := (p2step_fields pid s a).1
    rw [htab]
    by_cases hc : (s.table a).use = true ∧ (s.table a).pid = pid
    · have h1 : (p2step pid s a).log = s.log ++ [PCall.read a.val false] := by
        unfold p2step; rw [if_pos hc]
      rw [h1]
      simp [List.filter_cons, hc]
    · have h1 : p2step pid s a = s := by unfold p2step; rw [if_neg hc]
      rw [h1]
      simp [List.filter_cons, hc]

end Egos

namespace Egos

lemma switch_phase1_fields (pid : Int) (s : EarthState) :
    (switch_phase1 pid s).table = s.table ∧ (switch_phase1 pid s).phys = s.phys
    ∧ (switch_phase1 pid s).curr_vm_pid = s.curr_vm_pid := by
  obtain ⟨h1, h2, _, h4, _⟩ := p1_fold_fields pid (List.finRange NFRAMES) s
  exact ⟨h1, h2, h4⟩

lemma switch_phase2_fields (pid : Int) (s : EarthState) :
    (switch_phase2 pid s).table = s.table ∧ (switch_phase2 pid s).store = s.store
    ∧ (switch_phase2 pid s).curr_vm_pid = s.curr_vm_pid := by
  obtain ⟨h1, h2, _, h4, _⟩ := p2_fold_fields pid (List.finRange NFRAMES) s
  exact ⟨h1, h2, h4⟩

/-- C4: soft_mmu_switch(pid) is the identity when pid is already resident;
otherwise it first writes out every used frame of the resident pid to the
paging device keyed by its bound page number, then copies every used frame of
pid from the paging device into physical address page_no << 12, and updates
the resident-pid marker only after both phases (the result is the two-phase
state with the marker set at the end; both phases leave the marker untouched),
with the device-call log showing all writes before all reads. -/
theorem soft_mmu_switch_spec (pid : Int) (s : EarthState) :
    (pid = s.curr_vm_pid → soft_mmu_switch pid s = s)
    ∧ (soft_mmu_switch pid s).curr_vm_pid = pid
    ∧ (pid ≠ s.curr_vm_pid →
        soft_mmu_switch pid s =
          { switch_phase2 pid (switch_phase1 s.curr_vm_pid s) with curr_vm_pid := pid }
        ∧ (switch_phase1 s.curr_vm_pid s).table = s.table
        ∧ (switch_phase1 s.curr_vm_pid s).phys = s.phys
        ∧ (switch_phase1 s.curr_vm_pid s).curr_vm_pid = s.curr_vm_pid
        ∧ (∀ i : Fin NFRAMES, (s.table i).use = true → (s.table i).pid = s.curr_vm_pid →
            (switch_phase1 s.curr_vm_pid s).store i.val =
              readPage s.phys (s.table i).page_no)
        ∧ (switch_phase2 pid (switch_phase1 s.curr_vm_pid s)).table = s.table
        ∧ (switch_phase2 pid (switch_phase1 s.curr_vm_pid s)).curr_vm_pid = s.curr_vm_pid
        ∧ (∀ j : Fin NFRAMES, (s.table j).use = true → (s.table j).pid = pid →
            (∀ k : Fin NFRAMES, (s.table k).use = true → (s.table k).pid = pid →
              (s.table k).page_no = (s.table j).page_no → k ≤ j) →
            ∀ off : Nat, off < PAGE_SIZE →
              (soft_mmu_switch pid s).phys ((s.table j).page_no * PAGE_SIZE + off) =
                (switch_phase1 s.curr_vm_pid s).store j.val off)
        ∧ (soft_mmu_switch pid s).log = s.log
            ++ ((List.finRange NFRAMES).filter
                (fun i => decide ((s.table i).use = true ∧ (s.table i).pid = s.curr_vm_pid))).map
                (fun i => PCall.write i.val (s.table i).page_no)
            ++ ((List.finRange NFRAMES).filter
                (fun i => decide ((s.table i).use = true ∧ (s.table i).pid = pid))).map
                (fun i => PCall.read i.val false)) := by
  have hnoop : pid = s.curr_vm_pid → soft_mmu_switch pid s = s := by
    intro h
    unfold soft_mmu_switch
    rw [if_pos h]
  refine ⟨hnoop, ?_, ?_⟩
  · by_cases h : pid = s.curr_vm_pid
    · rw [hnoop h, ← h]
    · unfold soft_mmu_switch
      rw [if_neg h]
  · intro hne
    have hsw : soft_mmu_switch pid s =
        { switch_phase2 pid (switch_phase1 s.curr_vm_pid s) with curr_vm_pid := pid } := by
      unfold soft_mmu_switch
      rw [if_neg hne]
    obtain ⟨ht1, hp1, hc1⟩ := switch_phase1_fields s.curr_vm_pid s
    obtain ⟨ht2, hs2, hc2⟩ := switch_phase2_fields pid (switch_phase1 s.curr_vm_pid s)
    refine ⟨hsw, ht1, hp1, hc1, ?_, ht2.trans ht1, hc2.trans hc1, ?_, ?_⟩
    · intro i hu hpd
      unfold switch_phase1
      exact p1_fold_store_mem s.curr_vm_pid (List.finRange NFRAMES)
        (List.nodup_finRange NFRAMES) s i (List.mem_finRange i) hu hpd
    · intro j hu hpd hlast off hoff
      have hphys : (soft_mmu_switch pid s).phys =
          (switch_phase2 pid (switch_phase1 s.curr_vm_pid s)).phys := by
        rw [hsw]
      rw [hphys]
      unfold switch_phase2
      have := p2_fold_phys_last pid (List.finRange NFRAMES)
        (List.pairwise_lt_finRange NFRAMES) (switch_phase1 s.curr_vm_pid s) j
        (List.mem_finRange j) (by rw [ht1]; exact hu) (by rw [ht1]; exact hpd)
        (by rw [ht1]; exact fun k _ h1 h2 h3 => hlast k h1 h2 h3) off hoff
      rw [ht1] at this
      exact this
    · have hlog : (soft_mmu_switch pid s).log =
          (switch_phase2 pid (switch_phase1 s.curr_vm_pid s)).log := by
        rw [hsw]
      rw [hlog]
      unfold switch_phase2
      rw [p2_fold_log pid (List.finRange NFRAMES) (switch_phase1 s.curr_vm_pid s), ht1]
      unfold switch_phase1
      rw [p1_fold_log s.curr_vm_pid (List.finRange NFRAMES) s]

theorem soft_mmu_switch_spec_witness :
    soft_mmu_switch (-1) init_state = init_state
    ∧ (soft_mmu_switch (-1) init_state).curr_vm_pid = -1 :=
  ⟨(soft_mmu_switch_spec (-1) init_state).1 rfl, (soft_mmu_switch_spec (-1) init_state).2.1⟩

end Egos

namespace Egos

lemma with_curr_table (t : EarthState) (pid : Int) :
    ({ t with curr_vm_pid := pid } : EarthState).table = t.table := rfl

lemma with_curr_phys (t : EarthState) (pid : Int) :
    ({ t with curr_vm_pid := pid } : EarthState).phys = t.phys := rfl

lemma with_curr_store (t : EarthState) (pid : Int) :
    ({ t with curr_vm_pid := pid } : EarthState).store = t.store := rfl

lemma with_curr_log (t : EarthState) (pid : Int) :
    ({ t with curr_vm_pid := pid } : EarthState).log = t.log := rfl

lemma soft_mmu_map_table (pid : Int) (page_no : Nat) (fid : Fin NFRAMES)
    (s : EarthState) (j : Fin NFRAMES) :
    (soft_mmu_map pid page_no fid s).table j =
      if j = fid then { s.table fid with pid := pid, page_no := page_no }
      else s.table j := by
  unfold soft_mmu_map
  dsimp only
  rw [Function.update_apply]

lemma soft_mmu_map_fields (pid : Int) (page_no : Nat) (fid : Fin NFRAMES) (s : EarthState) :
    (soft_mmu_map pid page_no fid s).store = s.store
    ∧ (soft_mmu_map pid page_no fid s).phys = s.phys
    ∧ (soft_mmu_map pid page_no fid s).curr_vm_pid = s.curr_vm_pid :=
  ⟨rfl, rfl, rfl⟩

lemma soft_mmu_switch_decomp (pid : Int) (s : EarthState) (hne : pid ≠ s.curr_vm_pid) :
    soft_mmu_switch pid s =
      { switch_phase2 pid (switch_phase1 s.curr_vm_pid s) with curr_vm_pid := pid } := by
  unfold soft_mmu_switch
  rw [if_neg hne]

lemma soft_mmu_switch_table (pid : Int) (s : EarthState) :
    (soft_mmu_switch pid s).table = s.table := by
  by_cases h : pid = s.curr_vm_pid
  · unfold soft_mmu_switch; rw [if_pos h]
  · rw [soft_mmu_switch_decomp pid s h, with_curr_table,
      (switch_phase2_fields pid (switch_phase1 s.curr_vm_pid s)).1,
      (switch_phase1_fields s.curr_vm_pid s).1]

lemma soft_mmu_switch_phys_ne (pid : Int) (s : EarthState) (hne : pid ≠ s.curr_vm_pid) :
    (soft_mmu_switch pid s).phys =
      (switch_phase2 pid (switch_phase1 s.curr_vm_pid s)).phys := by
  rw [soft_mmu_switch_decomp pid s hne, with_curr_phys]

lemma soft_mmu_switch_store_ne (pid : Int) (s : EarthState) (hne : pid ≠ s.curr_vm_pid) :
    (soft_mmu_switch pid s).store = (switch_phase1 s.curr_vm_pid s).store := by
  rw [soft_mmu_switch_decomp pid s hne, with_curr_store,
    (switch_phase2_fields pid (switch_phase1 s.curr_vm_pid s)).2.1]

end Egos

namespace Egos

lemma with_curr_curr (t : EarthState) (pid : Int) :
    ({ t with curr_vm_pid := pid } : EarthState).curr_vm_pid = pid := rfl

lemma round_trip_map_switch (s : EarthState) (pid : Int) (page_no : Nat) (fid : Fin NFRAMES)
    (hu : (s.table fid).use = true) (hne : pid ≠ s.curr_vm_pid)
    (huniq : ∀ j : Fin NFRAMES, j ≠ fid →
      ¬((s.table j).use = true ∧ (s.table j).pid = pid ∧ (s.table j).page_no = page_no))
    (off : Nat) (hoff : off < PAGE_SIZE) :
    (soft_mmu_switch pid (soft_mmu_map pid page_no fid s)).phys (page_no * PAGE_SIZE + off)
      = s.store fid.val off := by
  have hmc : (soft_mmu_map pid page_no fid s).curr_vm_pid = s.curr_vm_pid := rfl
  have hmtf : (soft_mmu_map pid page_no fid s).table fid =
      { s.table fid with pid := pid, page_no := page_no } := by
    rw [soft_mmu_map_table, if_pos rfl]
  have hmto : ∀ j : Fin NFRAMES, j ≠ fid →
      (soft_mmu_map pid page_no fid s).table j = s.table j := by
    intro j hj
    rw [soft_mmu_map_table, if_neg hj]
  have hne2 : pid ≠ (soft_mmu_map pid page_no fid s).curr_vm_pid := by
    rw [hmc]; exact hne
  rw [soft_mmu_switch_phys_ne pid _ hne2]
  have ht1 : (switch_phase1 (soft_mmu_map pid page_no fid s).curr_vm_pid
      (soft_mmu_map pid page_no fid s)).table = (soft_mmu_map pid page_no fid s).table :=
    (switch_phase1_fields _ _).1
  unfold switch_phase2
  have hjc1 : ((switch_phase1 (soft_mmu_map pid page_no fid s).curr_vm_pid
      (soft_mmu_map pid page_no fid s)).table fid).use = true := by
    rw [ht1, hmtf]; exact hu
  have hjc2 : ((switch_phase1 (soft_mmu_map pid page_no fid s).curr_vm_pid
      (soft_mmu_map pid page_no fid s)).table fid).pid = pid := by
    rw [ht1, hmtf]
  have hlast : ∀ k ∈ List.finRange NFRAMES,
      ((switch_phase1 (soft_mmu_map pid page_no fid s).curr_vm_pid
        (soft_mmu_map pid page_no fid s)).table k).use = true →
      ((switch_phase1 (soft_mmu_map pid page_no fid s).curr_vm_pid
        (soft_mmu_map pid page_no fid s)).table k).pid = pid →
      ((switch_phase1 (soft_mmu_map pid page_no fid s).curr_vm_pid
        (soft_mmu_map pid page_no fid s)).table k).page_no =
        ((switch_phase1 (soft_mmu_map pid page_no fid s).curr_vm_pid
          (soft_mmu_map pid page_no fid s)).table fid).page_no →
      k ≤ fid := by
    intro k _ h1 h2 h3
    rw [ht1] at h1 h2 h3
    by_cases hk : k = fid
    · exact le_of_eq hk
    · rw [hmto k hk] at h1 h2 h3
      rw [hmtf] at h3
      exact absurd ⟨h1, h2, h3⟩ (huniq k hk)
  have happ := p2_fold_phys_last pid (List.finRange NFRAMES)
    (List.pairwise_lt_finRange NFRAMES) _ fid (List.mem_finRange fid) hjc1 hjc2 hlast off hoff
  have hpage : ((switch_phase1 (soft_mmu_map pid page_no fid s).curr_vm_pid
      (soft_mmu_map pid page_no fid s)).table fid).page_no = page_no := by
    rw [ht1, hmtf]
  rw [hpage] at happ
  rw [happ]
  have hst : (switch_phase1 (soft_mmu_map pid page_no fid s).curr_vm_pid
      (soft_mmu_map pid page_no fid s)).store fid.val =
      (soft_mmu_map pid page_no fid s).store fid.val := by
    unfold switch_phase1
    apply p1_fold_store_untouched
    intro j _ hcon
    have hjf : j = fid := Fin.val_injective hcon.2.2.symm
    rw [hjf, hmtf] at hcon
    have hpc : pid = (soft_mmu_map pid page_no fid s).curr_vm_pid := hcon.2.1
    rw [hmc] at hpc
    exact hne hpc
  rw [hst]
  rfl

lemma round_trip_away_back (s : EarthState) (pid q : Int) (i : Fin NFRAMES)
    (hcurr : s.curr_vm_pid = pid) (hq : q ≠ pid)
    (hu : (s.table i).use = true) (hp : (s.table i).pid = pid)
    (off : Nat) (hoff : off < PAGE_SIZE) :
    (soft_mmu_switch pid (soft_mmu_switch q s)).phys ((s.table i).page_no * PAGE_SIZE + off)
      = s.phys ((s.table i).page_no * PAGE_SIZE + off) := by
  have hqne : q ≠ s.curr_vm_pid := by rw [hcurr]; exact hq
  have hs1tab : (soft_mmu_switch q s).table = s.table := soft_mmu_switch_table q s
  have hs1curr : (soft_mmu_switch q s).curr_vm_pid = q := by
    rw [soft_mmu_switch_decomp q s hqne, with_curr_curr]
  have hs1store_pid : ∀ k : Fin NFRAMES, (s.table k).use = true → (s.table k).pid = pid →
      (soft_mmu_switch q s).store k.val = readPage s.phys (s.table k).page_no := by
    intro k hku hkp
    rw [soft_mmu_switch_store_ne q s hqne, hcurr]
    unfold switch_phase1
    exact p1_fold_store_mem pid (List.finRange NFRAMES) (List.nodup_finRange NFRAMES)
      s k (List.mem_finRange k) hku hkp
  have hpne : pid ≠ (soft_mmu_switch q s).curr_vm_pid := by
    rw [hs1curr]; exact fun h => hq h.symm
  rw [soft_mmu_switch_phys_ne pid _ hpne]
  have hCtab : (switch_phase1 (soft_mmu_switch q s).curr_vm_pid
      (soft_mmu_switch q s)).table = s.table := by
    rw [(switch_phase1_fields _ _).1, hs1tab]
  have hCstore : ∀ k : Fin NFRAMES, (s.table k).use = true → (s.table k).pid = pid →
      (switch_phase1 (soft_mmu_switch q s).curr_vm_pid (soft_mmu_switch q s)).store k.val =
        (soft_mmu_switch q s).store k.val := by
    intro k hku hkp
    unfold switch_phase1
    apply p1_fold_store_untouched
    intro j _ hcon
    have hjk : j = k := Fin.val_injective hcon.2.2.symm
    subst hjk
    rw [hs1tab] at hcon
    rw [hs1curr] at hcon
    exact hq (hcon.2.1.symm.trans hkp)
  have hiS : i ∈ Finset.univ.filter (fun k : Fin NFRAMES =>
      (s.table k).use = true ∧ (s.table k).pid = pid
      ∧ (s.table k).page_no = (s.table i).page_no) := by
    simp [hu, hp]
  have hSne : (Finset.univ.filter (fun k : Fin NFRAMES =>
      (s.table k).use = true ∧ (s.table k).pid = pid
      ∧ (s.table k).page_no = (s.table i).page_no)).Nonempty := ⟨i, hiS⟩
  have hjS := Finset.max'_mem _ hSne
  have hjprops : ((Finset.univ.filter (fun k : Fin NFRAMES =>
      (s.table k).use = true ∧ (s.table k).pid = pid
      ∧ (s.table k).page_no = (s.table i).page_no)).max' hSne ∈
        Finset.univ.filter (fun k : Fin NFRAMES =>
          (s.table k).use = true ∧ (s.table k).pid = pid
          ∧ (s.table k).page_no = (s.table i).page_no)) := hjS
  rw [Finset.mem_filter] at hjprops
  have hju := hjprops.2.1
  have hjp := hjprops.2.2.1
  have hjpage := hjprops.2.2.2
  unfold switch_phase2
  have happ := p2_fold_phys_last pid (List.finRange NFRAMES)
    (List.pairwise_lt_finRange NFRAMES)
    (switch_phase1 (soft_mmu_switch q s).curr_vm_pid (soft_mmu_switch q s))
    ((Finset.univ.filter (fun k : Fin NFRAMES =>
      (s.table k).use = true ∧ (s.table k).pid = pid
      ∧ (s.table k).page_no = (s.table i).page_no)).max' hSne)
    (List.mem_finRange _) (by rw [hCtab]; exact hju) (by rw [hCtab]; exact hjp)
    (by
      intro k _ h1 h2 h3
      rw [hCtab] at h1 h2 h3
      have hkS : k ∈ Finset.univ.filter (fun k : Fin NFRAMES =>
          (s.table k).use = true ∧ (s.table k).pid = pid
          ∧ (s.table k).page_no = (s.table i).page_no) := by
        rw [Finset.mem_filter]
        exact ⟨Finset.mem_univ k, h1, h2, h3.trans hjpage⟩
      exact Finset.le_max' _ k hkS)
    off hoff
  have hjpage2 : ((switch_phase1 (soft_mmu_switch q s).curr_vm_pid
      (soft_mmu_switch q s)).table
      ((Finset.univ.filter (fun k : Fin NFRAMES =>
        (s.table k).use = true ∧ (s.table k).pid = pid
        ∧ (s.table k).page_no = (s.table i).page_no)).max' hSne)).page_no =
      (s.table i).page_no := by
    rw [hCtab]; exact hjpage
  rw [hjpage2] at happ
  rw [happ, hCstore _ hju hjp, hs1store_pid _ hju hjp, hjpage]
  rfl

/-- C5: software-TLB round trip. After binding an allocated frame to
(pid, page_no) and switching to pid (pid not yet resident, frame uniquely
bound), the physical window page_no << 12 holds exactly the paging-device bytes
of the frame; and switching away from the resident pid to any other pid and
back restores at each bound window the content the switch-away wrote out. -/
theorem soft_tlb_round_trip :
    (∀ (s : EarthState) (pid : Int) (page_no : Nat) (fid : Fin NFRAMES),
        (s.table fid).use = true → pid ≠ s.curr_vm_pid →
        (∀ j : Fin NFRAMES, j ≠ fid →
          ¬((s.table j).use = true ∧ (s.table j).pid = pid
            ∧ (s.table j).page_no = page_no)) →
        ∀ off : Nat, off < PAGE_SIZE →
          (soft_mmu_switch pid (soft_mmu_map pid page_no fid s)).phys
              (page_no * PAGE_SIZE + off) = s.store fid.val off)
    ∧ (∀ (s : EarthState) (pid q : Int) (i : Fin NFRAMES),
        s.curr_vm_pid = pid → q ≠ pid →
        (s.table i).use = true → (s.table i).pid = pid →
        ∀ off : Nat, off < PAGE_SIZE →
          (soft_mmu_switch pid (soft_mmu_switch q s)).phys
              ((s.table i).page_no * PAGE_SIZE + off)
            = s.phys ((s.table i).page_no * PAGE_SIZE + off)) :=
  ⟨round_trip_map_switch, round_trip_away_back⟩

end Egos

namespace Egos

/-- State for the C5 counterexample: pid 5 is already resident, frame 0 is an
allocated frame of pid 5, the paging device holds byte 1 for every frame while
physical memory holds byte 0 everywhere. -/
def cex5state : EarthState :=
  { init_state with
      curr_vm_pid := 5
      table := Function.update init_state.table 0 ⟨true, 5, 0⟩
      store := fun _ _ => 1 }

theorem soft_tlb_round_trip_cex :
    (cex5state.table 0).use = true
    ∧ (soft_mmu_switch 5 (soft_mmu_map 5 0 0 cex5state)).phys (0 * PAGE_SIZE + 0)
        ≠ cex5state.store (0 : Fin NFRAMES).val 0 := by
  constructor
  · decide
  · decide

/-- State for the C5 witness: frame 0 is an allocated frame, nothing resident. -/
def wit5state : EarthState :=
  { init_state with table := Function.update init_state.table 0 ⟨true, 5, 0⟩ }

theorem soft_tlb_round_trip_witness :
    ((wit5state.table 0).use = true
      ∧ (5 : Int) ≠ wit5state.curr_vm_pid
      ∧ (∀ j : Fin NFRAMES, j ≠ 0 →
          ¬((wit5state.table j).use = true ∧ (wit5state.table j).pid = 5
            ∧ (wit5state.table j).page_no = 7))
      ∧ (0 : Nat) < PAGE_SIZE)
    ∧ (soft_mmu_switch 5 (soft_mmu_map 5 7 0 wit5state)).phys (7 * PAGE_SIZE + 0)
        = wit5state.store (0 : Fin NFRAMES).val 0 :=
  ⟨⟨by decide, by decide, by decide, by decide⟩,
   soft_tlb_round_trip.1 wit5state 5 7 0 (by decide) (by decide) (by decide) 0 (by decide)⟩

end Egos

namespace Egos

/-- C7: the mmu_init boot state machine. Console input is re-read until the
character is 0 or 1 (anything else is skipped; input never yielding one hangs
forever); choosing page tables on an Arty (capability-limited) platform is a
FATAL abort; choosing software TLB installs the four soft functions and then
initializes the paging device; choosing page tables on QEMU first builds the
identity mapping for the boot process pid 0, installs the page-table map and
switch while alloc and free remain the shared functions, and then initializes
the paging device. -/
theorem mmu_init_spec :
    (∀ (c : Char) (cs : List Char), c ≠ '0' → c ≠ '1' →
        readChoice (c :: cs) = readChoice cs)
    ∧ (∀ (input : List Char) (arty : Bool) (s : EarthState),
        readChoice input = none → mmu_init input arty s = .hangs)
    ∧ (∀ (input : List Char) (s : EarthState),
        readChoice input = some '0' →
        mmu_init input true s =
          .fatal "Arty board does not support page tables (supervisor mode).")
    ∧ (∀ (input : List Char) (arty : Bool) (s : EarthState),
        readChoice input = some '1' →
        mmu_init input arty s =
          .ok ⟨MMUFn.alloc_fn, MMUFn.free_fn, MMUFn.soft_map_fn, MMUFn.soft_switch_fn⟩
            (paging_init s))
    ∧ (∀ (input : List Char) (s s1 : EarthState),
        readChoice input = some '0' →
        pagetable_identity_mapping 0 s = .ok s1 →
        mmu_init input false s =
          .ok ⟨MMUFn.alloc_fn, MMUFn.free_fn, MMUFn.pt_map_fn, MMUFn.pt_switch_fn⟩
            (paging_init s1))
    ∧ (∀ s : EarthState, (paging_init s).log = s.log ++ [PCall.initDev]) := by
  refine ⟨?_, ?_, ?_, ?_, ?_, fun s => rfl⟩
  · intro c cs h0 h1
    have he : readChoice (c :: cs) =
        if c = '0' ∨ c = '1' then some c else readChoice cs := rfl
    rw [he, if_neg (fun hor => Or.elim hor h0 h1)]
  · intro input arty s h
    unfold mmu_init
    rw [h]
  · intro input s h
    unfold mmu_init
    rw [h]
    dsimp only
    rw [if_pos ⟨rfl, rfl⟩]
  · intro input arty s h
    unfold mmu_init
    rw [h]
    dsimp only
    rw [if_neg (fun hc => absurd hc.2 (by decide)), if_neg (by decide)]
  · intro input s s1 h hpim
    unfold mmu_init
    rw [h]
    dsimp only
    rw [if_neg (fun hc => absurd hc.1 (by decide)), if_pos rfl, hpim]

theorem mmu_init_spec_witness :
    readChoice ['x', '1'] = some '1'
    ∧ mmu_init ['x', '1'] true init_state =
        .ok ⟨MMUFn.alloc_fn, MMUFn.free_fn, MMUFn.soft_map_fn, MMUFn.soft_switch_fn⟩
          (paging_init init_state) :=
  ⟨by decide, mmu_init_spec.2.2.2.1 ['x', '1'] true init_state (by decide)⟩

/-- C9: dir_lookup and file_read fail fatally exactly when the reply sender is
not the expected server; otherwise dir_lookup returns the reply inode for
status DIR_OK and -1 for any other status, and file_read copies BLOCK_SIZE
bytes of the reply block into the caller buffer and returns 0 for FILE_OK and
-1 otherwise. -/
theorem servers_reply_spec :
    (∀ (sender : Int) (reply : dir_reply),
        ((∃ msg, dir_lookup sender reply = .error msg) ↔ sender ≠ GPID_DIR)
        ∧ (sender = GPID_DIR → reply.status = DIR_OK →
            dir_lookup sender reply = .ok reply.ino)
        ∧ (sender = GPID_DIR → reply.status ≠ DIR_OK →
            dir_lookup sender reply = .ok (-1)))
    ∧ (∀ (sender : Int) (reply : file_reply) (dest : Nat → Nat),
        ((∃ msg, file_read sender reply dest = .error msg) ↔ sender ≠ GPID_FILE)
        ∧ (sender = GPID_FILE →
            file_read sender reply dest =
              .ok (fun a => if a < BLOCK_SIZE then reply.block a else dest a,
                   if reply.status = FILE_OK then 0 else -1))) := by
  constructor
  · intro sender reply
    refine ⟨⟨?_, ?_⟩, ?_, ?_⟩
    · rintro ⟨msg, h⟩ hs
      unfold dir_lookup at h
      rw [if_neg (fun hc => hc hs)] at h
      cases h
    · intro hs
      exact ⟨_, by unfold dir_lookup; rw [if_pos hs]⟩
    · intro hs hst
      unfold dir_lookup
      rw [if_neg (fun hc => hc hs), if_pos hst]
    · intro hs hst
      unfold dir_lookup
      rw [if_neg (fun hc => hc hs), if_neg hst]
  · intro sender reply dest
    refine ⟨⟨?_, ?_⟩, ?_⟩
    · rintro ⟨msg, h⟩ hs
      unfold file_read at h
      rw [if_neg (fun hc => hc hs)] at h
      cases h
    · intro hs
      exact ⟨_, by unfold file_read; rw [if_pos hs]⟩
    · intro hs
      unfold file_read
      rw [if_neg (fun hc => hc hs)]

theorem servers_reply_spec_witness :
    ((4 : Int) = GPID_DIR)
    ∧ dir_lookup 4 ⟨0, 77⟩ = .ok (77 : Int) :=
  ⟨rfl, (servers_reply_spec.1 4 ⟨0, 77⟩).2.1 rfl rfl⟩

end Egos

namespace Egos

lemma lor_eq_add_pow (n x y : Nat) (hx : x % 2 ^ n = 0) (hy : y < 2 ^ n) :
    x ||| y = x + y := by
  have hq : x = 2 ^ n * (x / 2 ^ n) := by
    conv_lhs => rw [← Nat.div_add_mod x (2 ^ n)]
    rw [hx, Nat.add_zero]
  apply Nat.eq_of_testBit_eq
  intro i
  rw [Nat.testBit_or, hq, Nat.testBit_mul_pow_two_add _ hy i, Nat.testBit_mul_pow_two]
  by_cases hin : i < n
  · rw [if_pos hin]
    have h1 : decide (i ≥ n) = false := by simp; omega
    rw [h1]
    simp
  · rw [if_neg hin]
    have h1 : decide (i ≥ n) = true := by simp; omega
    rw [h1]
    have h2 : Nat.testBit y i = false :=
      Nat.testBit_lt_two_pow (lt_of_lt_of_le hy (Nat.pow_le_pow_right (by omega) (by omega)))
    rw [h2]
    simp

lemma lor_one_eq_add (x : Nat) (hx : x % 2 = 0) : x ||| 1 = x + 1 :=
  lor_eq_add_pow 1 x 1 (by rw [show (2 : Nat) ^ 1 = 2 from rfl]; exact hx) (by norm_num)

lemma lor_fifteen_eq_add (x : Nat) (hx : x % 16 = 0) : x ||| 15 = x + 15 :=
  lor_eq_add_pow 4 x 15 (by rw [show (2 : Nat) ^ 4 = 16 from rfl]; exact hx) (by norm_num)

lemma and_1023_eq_mod (x : Nat) : x &&& 1023 = x % 1024 := by
  rw [show (1023 : Nat) = 2 ^ 10 - 1 from rfl, Nat.and_pow_two_sub_one_eq_mod,
    show (2 : Nat) ^ 10 = 1024 from rfl]

lemma shiftRight_two (x : Nat) : x >>> 2 = x / 4 := by
  rw [Nat.shiftRight_eq_div_pow, show (2 : Nat) ^ 2 = 4 from rfl]

lemma shiftRight_ten (x : Nat) : x >>> 10 = x / 1024 := by
  rw [Nat.shiftRight_eq_div_pow, show (2 : Nat) ^ 10 = 1024 from rfl]

lemma shiftRight_twelve (x : Nat) : x >>> 12 = x / 4096 := by
  rw [Nat.shiftRight_eq_div_pow, show (2 : Nat) ^ 12 = 4096 from rfl]

lemma shiftRight_twentytwo (x : Nat) : x >>> 22 = x / 4194304 := by
  rw [Nat.shiftRight_eq_div_pow, show (2 : Nat) ^ 22 = 4194304 from rfl]

/-- The leaf-filling loop of setup_identity_region as a standalone function:
write `npages` page table entries at word indexes leafW + vpn0 + k. -/
def fill_mem (m : Nat → Nat) (leafW vpn0 addr npages : Nat) : Nat → Nat :=
  (List.range npages).foldl
    (fun mm k => Function.update mm (leafW + vpn0 + k)
      (((addr + k * PAGE_SIZE) >>> 2) ||| FLAG_VALID_RWX)) m

lemma fill_mem_untouched (m : Nat → Nat) (leafW vpn0 addr : Nat) (npages : Nat) (w : Nat)
    (h : ∀ k, k < npages → leafW + vpn0 + k ≠ w) :
    fill_mem m leafW vpn0 addr npages w = m w := by
  induction npages with
  | zero => rfl
  | succ n ih =>
    unfold fill_mem
    rw [List.range_succ, List.foldl_append, List.foldl_cons, List.foldl_nil,
      Function.update_apply, if_neg (fun he => h n (by omega) he.symm)]
    exact ih (fun k hk => h k (by omega))

lemma fill_mem_at (m : Nat → Nat) (leafW vpn0 addr : Nat) (npages : Nat) (k : Nat)
    (hk : k < npages) :
    fill_mem m leafW vpn0 addr npages (leafW + vpn0 + k) =
      ((addr + k * PAGE_SIZE) >>> 2) ||| FLAG_VALID_RWX := by
  induction npages with
  | zero => omega
  | succ n ih =>
    unfold fill_mem
    rw [List.range_succ, List.foldl_append, List.foldl_cons, List.foldl_nil,
      Function.update_apply]
    by_cases hkn : k = n
    · rw [if_pos (by omega)]
      rw [hkn]
    · rw [if_neg (by omega)]
      exact ih (by omega)

end Egos

namespace Egos

/-- The state produced by a successful setup_identity_region that allocated
frame `i`: the frame is marked used, the static frame_id and leaf are set, the
leaf page is zeroed, the root entry is written, and the leaf entries filled. -/
def setup_post (s : EarthState) (addr npages : Nat) (i : Fin NFRAMES) : EarthState :=
  { alloc_post s i with
      frame_id := i.val
      leaf := paging_read_addr i.val
      mem := fill_mem
        (Function.update (memset_page s.mem (paging_read_addr i.val))
          (s.root / 4 + (addr >>> 22))
          ((paging_read_addr i.val >>> 2) ||| FLAG_NEXT_LEVEL))
        (paging_read_addr i.val / 4) ((addr >>> 12) &&& 0x3FF) addr npages }

lemma setup_identity_region_eq (s : EarthState) (addr npages : Nat) (i : Fin NFRAMES)
    (hfree : (s.table i).use = false)
    (hmin : ∀ j : Fin NFRAMES, j < i → (s.table j).use = true) :
    setup_identity_region addr npages s = .ok (setup_post s addr npages i) := by
  unfold setup_identity_region
  rw [mmu_alloc_ok_eq s i hfree hmin]
  rfl

end Egos

namespace Egos

/-- C6: setup_identity_region(addr, npages) allocates a fresh leaf page table
frame (the lowest free frame; the amended reading: unconditionally, even if
the covering root entry is present), zero-initializes the leaf, installs the
root entry ((leaf >> 2) | 0x1) at index addr >> 22 — whose flag bits are
exactly 0x1 and which points at the leaf frame — and fills npages consecutive
leaf entries starting at index (addr >> 12) & 0x3FF with
((addr + k * PAGE_SIZE) >> 2) | 0xF, each carrying flag bits exactly 0xF and
encoding a physical page number equal to the mapped virtual page number. -/
theorem setup_identity_region_spec (s : EarthState) (addr npages : Nat) (i : Fin NFRAMES)
    (hfree : (s.table i).use = false)
    (hmin : ∀ j : Fin NFRAMES, j < i → (s.table j).use = true)
    (haddr : addr % PAGE_SIZE = 0)
    (hcap : (addr >>> 12) % 1024 + npages ≤ 1024)
    (hdis : s.root / 4 + (addr >>> 22) < i.val * 1024
            ∨ i.val * 1024 + 1024 ≤ s.root / 4 + (addr >>> 22)) :
    ∃ s', setup_identity_region addr npages s = .ok s'
      ∧ (s'.table i).use = true
      ∧ s'.frame_id = i.val ∧ s'.leaf = i.val * PAGE_SIZE ∧ s'.root = s.root
      ∧ s'.mem (s.root / 4 + (addr >>> 22)) = ((i.val * PAGE_SIZE) >>> 2) ||| FLAG_NEXT_LEVEL
      ∧ (((i.val * PAGE_SIZE) >>> 2) ||| FLAG_NEXT_LEVEL) % 16 = 0x1
      ∧ ((((i.val * PAGE_SIZE) >>> 2) ||| FLAG_NEXT_LEVEL) >>> 10) = i.val
      ∧ (∀ k, k < npages →
          s'.mem (i.val * 1024 + (addr >>> 12) % 1024 + k)
            = ((addr + k * PAGE_SIZE) >>> 2) ||| FLAG_VALID_RWX
          ∧ (((addr + k * PAGE_SIZE) >>> 2) ||| FLAG_VALID_RWX) % 16 = 0xF
          ∧ ((((addr + k * PAGE_SIZE) >>> 2) ||| FLAG_VALID_RWX) >>> 10)
              = addr / PAGE_SIZE + k
          ∧ (addr >>> 22) * 1024 + (addr >>> 12) % 1024 + k = addr / PAGE_SIZE + k)
      ∧ (∀ w, w < 1024 →
          (w < (addr >>> 12) % 1024 ∨ (addr >>> 12) % 1024 + npages ≤ w) →
          s'.mem (i.val * 1024 + w) = 0) := by
  have hPS : PAGE_SIZE = 4096 := rfl
  have hpra : paging_read_addr i.val = i.val * 4096 := by
    unfold paging_read_addr; rw [hPS]
  have hleafW : paging_read_addr i.val / 4 = i.val * 1024 := by rw [hpra]; omega
  have hvpn0 : (addr >>> 12) &&& 0x3FF = (addr >>> 12) % 1024 := and_1023_eq_mod _
  have hv12 : addr >>> 12 = addr / 4096 := shiftRight_twelve addr
  have hv22 : addr >>> 22 = addr / 4194304 := shiftRight_twentytwo addr
  obtain ⟨t, ht⟩ : ∃ t, addr = 4096 * t := ⟨addr / 4096, by rw [hPS] at haddr; omega⟩
  have hmem : (setup_post s addr npages i).mem = fill_mem
      (Function.update (memset_page s.mem (paging_read_addr i.val))
        (s.root / 4 + (addr >>> 22))
        ((paging_read_addr i.val >>> 2) ||| FLAG_NEXT_LEVEL))
      (paging_read_addr i.val / 4) ((addr >>> 12) &&& 0x3FF) addr npages := rfl
  have hrootv : (i.val * PAGE_SIZE) >>> 2 ||| FLAG_NEXT_LEVEL = i.val * 1024 + 1 := by
    rw [hPS, shiftRight_two]
    have h4 : i.val * 4096 / 4 = i.val * 1024 := by omega
    rw [h4]
    exact lor_one_eq_add _ (by omega)
  have hprv : paging_read_addr i.val >>> 2 = (i.val * PAGE_SIZE) >>> 2 := by rw [hpra, hPS]
  refine ⟨setup_post s addr npages i, setup_identity_region_eq s addr npages i hfree hmin,
    ?_, rfl, ?_, rfl, ?_, ?_, ?_, ?_, ?_⟩
  · show ((alloc_post s i).table i).use = true
    rw [alloc_post_table]; simp
  · show paging_read_addr i.val = i.val * PAGE_SIZE
    rw [hpra, hPS]
  · -- root entry value
    rw [hmem]
    rw [fill_mem_untouched]
    · rw [Function.update_same, hprv]
    · intro k hk
      rw [hleafW, hvpn0]
      omega
  · rw [hrootv]; omega
  · rw [hrootv, shiftRight_ten]; omega
  · intro k hk
    have hval : (addr + k * PAGE_SIZE) >>> 2 ||| FLAG_VALID_RWX = 1024 * (t + k) + 15 := by
      rw [hPS, shiftRight_two]
      have h4 : (addr + k * 4096) / 4 = 1024 * (t + k) := by rw [ht]; ring_nf; omega
      rw [h4]
      exact lor_fifteen_eq_add _ (by omega)
    refine ⟨?_, ?_, ?_, ?_⟩
    · rw [hmem]
      have hkey : i.val * 1024 + (addr >>> 12) % 1024 + k =
          paging_read_addr i.val / 4 + ((addr >>> 12) &&& 0x3FF) + k := by
        rw [hleafW, hvpn0]
      rw [hkey]
      exact fill_mem_at _ _ _ _ _ _ hk
    · rw [hval]; omega
    · rw [hval, shiftRight_ten, hPS, ht]
      have h1 : (1024 * (t + k) + 15) / 1024 = t + k := by omega
      have h2 : 4096 * t / 4096 = t := by omega
      rw [h1, h2]
    · rw [hv12, hv22, hPS, ht]
      omega
  · intro w hw hout
    rw [hmem]
    rw [fill_mem_untouched]
    · rw [Function.update_apply, if_neg (by omega)]
      unfold memset_page
      rw [if_pos]
      rw [hpra]
      constructor <;> omega
    · intro k hk
      rw [hleafW, hvpn0]
      omega

end Egos

namespace Egos

/-- State for the C6 counterexample and witness: frame 0 is used (so the next
allocation picks frame 1) and the root entry word for address 0x02000000
(word index root / 4 + 8 = 8) already holds a nonzero (present) entry. -/
def cex6state : EarthState :=
  { init_state with
      table := Function.update init_state.table 0 ⟨true, 0, 0⟩
      mem := Function.update init_state.mem 8 5 }

theorem setup_identity_region_cex :
    cex6state.mem (cex6state.root / 4 + (0x02000000 >>> 22)) ≠ 0
    ∧ ∃ s', setup_identity_region 0x02000000 16 cex6state = .ok s'
        ∧ (cex6state.table 1).use = false ∧ (s'.table 1).use = true :=
  ⟨by decide, ⟨_, rfl, by decide, by decide⟩⟩

theorem setup_identity_region_spec_witness :
    ((cex6state.table 1).use = false
      ∧ (∀ j : Fin NFRAMES, j < 1 → (cex6state.table j).use = true)
      ∧ (0x02000000 : Nat) % PAGE_SIZE = 0
      ∧ ((0x02000000 : Nat) >>> 12) % 1024 + 16 ≤ 1024
      ∧ (cex6state.root / 4 + ((0x02000000 : Nat) >>> 22) < (1 : Fin NFRAMES).val * 1024
          ∨ (1 : Fin NFRAMES).val * 1024 + 1024
              ≤ cex6state.root / 4 + ((0x02000000 : Nat) >>> 22)))
    ∧ (∃ s', setup_identity_region 0x02000000 16 cex6state = .ok s'
        ∧ (s'.table 1).use = true
        ∧ s'.frame_id = (1 : Fin NFRAMES).val
        ∧ s'.leaf = (1 : Fin NFRAMES).val * PAGE_SIZE ∧ s'.root = cex6state.root
        ∧ s'.mem (cex6state.root / 4 + (0x02000000 >>> 22))
            = (((1 : Fin NFRAMES).val * PAGE_SIZE) >>> 2) ||| FLAG_NEXT_LEVEL
        ∧ ((((1 : Fin NFRAMES).val * PAGE_SIZE) >>> 2) ||| FLAG_NEXT_LEVEL) % 16 = 0x1
        ∧ (((((1 : Fin NFRAMES).val * PAGE_SIZE) >>> 2) ||| FLAG_NEXT_LEVEL) >>> 10)
            = (1 : Fin NFRAMES).val
        ∧ (∀ k, k < 16 →
            s'.mem ((1 : Fin NFRAMES).val * 1024 + ((0x02000000 : Nat) >>> 12) % 1024 + k)
              = (((0x02000000 + k * PAGE_SIZE : Nat)) >>> 2) ||| FLAG_VALID_RWX
            ∧ ((((0x02000000 + k * PAGE_SIZE : Nat)) >>> 2) ||| FLAG_VALID_RWX) % 16 = 0xF
            ∧ (((((0x02000000 + k * PAGE_SIZE : Nat)) >>> 2) ||| FLAG_VALID_RWX) >>> 10)
                = (0x02000000 : Nat) / PAGE_SIZE + k
            ∧ ((0x02000000 : Nat) >>> 22) * 1024 + ((0x02000000 : Nat) >>> 12) % 1024 + k
                = (0x02000000 : Nat) / PAGE_SIZE + k)
        ∧ (∀ w, w < 1024 →
            (w < ((0x02000000 : Nat) >>> 12) % 1024
              ∨ ((0x02000000 : Nat) >>> 12) % 1024 + 16 ≤ w) →
            s'.mem ((1 : Fin NFRAMES).val * 1024 + w) = 0)) :=
  ⟨⟨by decide, by decide, by decide, by decide, by decide⟩,
   setup_identity_region_spec cex6state 0x02000000 16 1 (by decide) (by decide)
     (by decide) (by decide) (by decide)⟩

end Egos

namespace Egos

lemma except_bind_ok {α β : Type} (x : Except String α) (f : α → Except String β) (b : β)
    (h : (x >>= f) = .ok b) : ∃ a, x = .ok a ∧ f a = .ok b := by
  cases x with
  | error e => simp [Bind.bind, Except.bind] at h
  | ok a => exact ⟨a, rfl, by simpa [Bind.bind, Except.bind] using h⟩

/-- The frame table of `t` extends the frame table of `s`: ownership and page
bindings are unchanged and no used frame becomes free. -/
def TableMono (s t : EarthState) : Prop :=
  ∀ j : Fin NFRAMES, (t.table j).pid = (s.table j).pid
    ∧ (t.table j).page_no = (s.table j).page_no
    ∧ ((s.table j).use = true → (t.table j).use = true)

lemma tableMono_refl (s : EarthState) : TableMono s s :=
  fun _ => ⟨rfl, rfl, fun h => h⟩

lemma tableMono_trans {a b c : EarthState} (h1 : TableMono a b) (h2 : TableMono b c) :
    TableMono a c := fun j =>
  ⟨(h2 j).1.trans (h1 j).1, (h2 j).2.1.trans (h1 j).2.1,
   fun hu => (h2 j).2.2 ((h1 j).2.2 hu)⟩

lemma tableMono_of_table_eq {a b : EarthState} (h : b.table = a.table) : TableMono a b :=
  fun j => by rw [h]; exact ⟨rfl, rfl, fun hu => hu⟩

lemma alloc_post_tableMono (s : EarthState) (i : Fin NFRAMES) :
    TableMono s (alloc_post s i) := by
  intro j
  rw [alloc_post_table]
  by_cases hj : j = i
  · subst hj
    exact ⟨by simp, by simp, fun _ => by simp⟩
  · rw [if_neg hj]
    exact ⟨rfl, rfl, fun hu => hu⟩

lemma setup_tableMono (addr npages : Nat) (s s' : EarthState)
    (h : setup_identity_region addr npages s = .ok s') : TableMono s s' := by
  unfold setup_identity_region at h
  cases ha : mmu_alloc s with
  | error e => rw [ha] at h; cases h
  | ok v =>
    obtain ⟨r, fid, a, s1⟩ := v
    rw [ha] at h
    dsimp only at h
    simp only [Except.ok.injEq] at h
    obtain ⟨i, _, _, _, _, _, hs1⟩ := mmu_alloc_ok_inv s s1 r fid a ha
    subst hs1
    have htab : s'.table = (alloc_post s i).table := by rw [← h]
    exact tableMono_trans (alloc_post_tableMono s i) (tableMono_of_table_eq htab)

lemma pim_tableMono (pid : Int) (s s' : EarthState)
    (h : pagetable_identity_mapping pid s = .ok s') : TableMono s s' := by
  unfold pagetable_identity_mapping at h
  cases ha : mmu_alloc s with
  | error e => rw [ha] at h; cases h
  | ok v =>
    obtain ⟨r, fid, a, s1⟩ := v
    rw [ha] at h
    dsimp only at h
    obtain ⟨i, _, _, _, _, _, hs1⟩ := mmu_alloc_ok_inv s s1 r fid a ha
    subst hs1
    obtain ⟨y5, hA, h6⟩ := except_bind_ok _ _ _ h
    obtain ⟨y4, hB, h5⟩ := except_bind_ok _ _ _ hA
    obtain ⟨y3, hC, h4⟩ := except_bind_ok _ _ _ hB
    obtain ⟨y2, hD, h3⟩ := except_bind_ok _ _ _ hC
    obtain ⟨y1, hE, h2⟩ := except_bind_ok _ _ _ hD
    have hm0 : TableMono s (alloc_post s i) := alloc_post_tableMono s i
    have hm1 := setup_tableMono _ _ _ _ hE
    have hm2 := setup_tableMono _ _ _ _ h2
    have hm3 := setup_tableMono _ _ _ _ h3
    have hm4 := setup_tableMono _ _ _ _ h4
    have hm5 := setup_tableMono _ _ _ _ h5
    have hm6 := setup_tableMono _ _ _ _ h6
    intro j
    refine ((tableMono_trans hm0 (tableMono_trans ?_ (tableMono_trans hm2
      (tableMono_trans hm3 (tableMono_trans hm4 (tableMono_trans hm5 hm6)))))) j)
    intro j2
    exact hm1 j2

/-- C10: mmu_alloc changes only the use flag of the frame it returns, leaving
owner pid and page number of every frame untouched; consequently, when every
free frame has owner pid 0 (as after boot zero-initialization or after a
clear), the frames allocated by pagetable_identity_mapping(0) — root and leaf
page tables, which are never bound by soft_mmu_map — still carry owner pid 0
and are all reclaimed by mmu_free(0). -/
theorem mmu_alloc_frame_effect_free_reclaims (s : EarthState)
    (hcleared : ∀ i : Fin NFRAMES, (s.table i).use = false → (s.table i).pid = 0) :
    (∀ (t t' : EarthState) (r : Int) (fid a : Nat), mmu_alloc t = .ok (r, fid, a, t') →
        ∀ j : Fin NFRAMES, (t'.table j).pid = (t.table j).pid
          ∧ (t'.table j).page_no = (t.table j).page_no
          ∧ (j.val ≠ fid → (t'.table j).use = (t.table j).use))
    ∧ (∀ s' : EarthState, pagetable_identity_mapping 0 s = .ok s' →
        ∀ j : Fin NFRAMES, (s.table j).use = false →
          (s'.table j).pid = 0 ∧ ((mmu_free 0 s').table j).use = false) := by
  constructor
  · intro t t' r fid a h j
    obtain ⟨i, hival, _, _, _, _, hs⟩ := mmu_alloc_ok_inv t t' r fid a h
    subst hs
    rw [alloc_post_table]
    by_cases hj : j = i
    · subst hj
      exact ⟨by simp, by simp, fun hne => absurd hival hne⟩
    · rw [if_neg hj]
      exact ⟨rfl, rfl, fun _ => rfl⟩
  · intro s' h j hjfree
    have hmono := pim_tableMono 0 s s' h
    have hpid : (s'.table j).pid = 0 := by
      rw [(hmono j).1]
      exact hcleared j hjfree
    refine ⟨hpid, ?_⟩
    rw [mmu_free_table]
    by_cases hc : (s'.table j).use = true ∧ (s'.table j).pid = 0
    · rw [if_pos hc]
      rfl
    · rw [if_neg hc]
      cases hq : (s'.table j).use
      · rfl
      · exact absurd ⟨hq, hpid⟩ hc

theorem mmu_alloc_frame_effect_free_reclaims_witness :
    (∀ i : Fin NFRAMES, (init_state.table i).use = false → (init_state.table i).pid = 0)
    ∧ ((∀ (t t' : EarthState) (r : Int) (fid a : Nat), mmu_alloc t = .ok (r, fid, a, t') →
          ∀ j : Fin NFRAMES, (t'.table j).pid = (t.table j).pid
            ∧ (t'.table j).page_no = (t.table j).page_no
            ∧ (j.val ≠ fid → (t'.table j).use = (t.table j).use))
      ∧ (∀ s' : EarthState, pagetable_identity_mapping 0 init_state = .ok s' →
          ∀ j : Fin NFRAMES, (init_state.table j).use = false →
            (s'.table j).pid = 0 ∧ ((mmu_free 0 s').table j).use = false)) :=
  ⟨by decide, mmu_alloc_frame_effect_free_reclaims init_state (by decide)⟩

end Egos
